import Mathlib

/-!
Formal model of the prompt-backtest execution engine of the
Hyper-Alpha-Arena-diy repository.

The model is a shallow embedding of
`src/backend/services/prompt_backtest_service.py` and
`src/backend/api/prompt_backtest_routes.py`:

* Python strings are modelled as `List Char` (`Str`), with Python string
  primitives (`strip`, `split`, `replace`, slicing, containment) re-defined
  with Python's semantics.
* JSON documents (provider responses, parsed decisions) are modelled by the
  inductive `JValue`; `jsonLoads` models strict `json.loads`.
* Database rows are plain structures; a commit is one state transition.
-/

/-- Text is modelled as a list of characters, mirroring Python strings. -/
abbrev Str : Type := List Char

/-- View a Lean string literal as the character-list representation. -/
def lit (s : String) : Str := s.data

/-- Character class removed by Python `str.strip()` (the ASCII whitespace
subset, which is all that the modelled texts use). -/
def pyIsSpace (c : Char) : Bool :=
  c == ' ' || c == '\t' || c == '\n' || c == '\r' || c == '\x0b' || c == '\x0c'

/-- Python `s.lstrip()`. -/
def pyStripLeft (s : Str) : Str := s.dropWhile pyIsSpace

/-- Python `s.rstrip()`. -/
def pyStripRight (s : Str) : Str := (s.reverse.dropWhile pyIsSpace).reverse

/-- Python `s.strip()`. -/
def pyStrip (s : Str) : Str := pyStripRight (pyStripLeft s)

/-- First occurrence of `sep` in `s`: the part strictly before it and the
part strictly after it, or `none` when `sep` does not occur. -/
def findSub (sep : Str) : Str → Option (Str × Str)
  | [] => if sep.isEmpty then some ([], []) else none
  | c :: rest =>
      if sep.isPrefixOf (c :: rest) then some ([], (c :: rest).drop sep.length)
      else
        match findSub sep rest with
        | some (pre, post) => some (c :: pre, post)
        | none => none

theorem findSub_length (sep : Str) (hsep : sep ≠ []) :
    ∀ (s pre post : Str), findSub sep s = some (pre, post) →
      post.length + sep.length ≤ s.length := by
  intro s
  induction s with
  | nil =>
    intro pre post h
    simp only [findSub] at h
    simp [List.isEmpty_iff, hsep] at h
  | cons c rest ih =>
    intro pre post h
    simp only [findSub] at h
    by_cases hpre : sep.isPrefixOf (c :: rest)
    · simp only [hpre, if_pos] at h
      cases h
      have hle : sep.length ≤ (c :: rest).length := List.IsPrefix.length_le
        (List.isPrefixOf_iff_prefix.mp hpre)
      have := List.length_drop sep.length (c :: rest)
      omega
    · simp only [hpre, if_neg, not_false_iff] at h
      cases hrec : findSub sep rest with
      | none => rw [hrec] at h; cases h
      | some pr =>
        rw [hrec] at h
        cases pr with
        | mk pre' post' =>
          simp at h
          obtain ⟨h1, h2⟩ := h
          subst h2
          have := ih pre' post' hrec
          simp only [List.length_cons]
          omega

theorem findSub_length_lt (sep s pre post : Str) (hsep : ¬ sep.isEmpty)
    (h : findSub sep s = some (pre, post)) : post.length < s.length := by
  have hne : sep ≠ [] := by
    intro hn
    exact hsep (by simp [hn])
  have := findSub_length sep hne s pre post h
  have hpos : 0 < sep.length := by
    cases sep with
    | nil => exact absurd rfl hne
    | cons a l => simp
  omega

/-- Python `s.split(sep)` for a non-empty separator (an empty separator is a
`ValueError` in Python and never occurs in the modelled code). -/
def pySplit (sep : Str) (s : Str) : List Str :=
  match h : findSub sep s with
  | none => [s]
  | some (pre, post) =>
      if hsep : sep.isEmpty then [s]
      else pre :: pySplit sep post
termination_by s.length
decreasing_by
  exact findSub_length_lt sep s pre post hsep h

/-- Python `sep in s` (substring containment). -/
def strContains (sep : Str) (s : Str) : Bool := (findSub sep s).isSome

/-- Python `s.replace(old, new)` for a non-empty pattern. -/
def pyReplace (old new : Str) (s : Str) : Str :=
  match h : findSub old s with
  | none => s
  | some (pre, post) =>
      if hold : old.isEmpty then s
      else pre ++ new ++ pyReplace old new post
termination_by s.length
decreasing_by
  exact findSub_length_lt old s pre post hold h

/-- Python `s.lower()` (the modelled strings are ASCII operation labels). -/
def pyLower (s : Str) : Str := s.map Char.toLower

/-- One JSON document, as produced by Python's `json.loads`. Numbers keep
their source lexeme (the modelled code never does numeric arithmetic on
them). Objects are association lists built with Python-dict insertion. -/
inductive JValue where
  | null : JValue
  | bool : Bool → JValue
  | num : Str → JValue
  | str : Str → JValue
  | arr : List JValue → JValue
  | obj : List (Str × JValue) → JValue
deriving Repr

mutual

/-- Boolean equality on JSON values (the deriving handler does not support
this nested inductive). -/
def JValue.beq : JValue → JValue → Bool
  | .null, .null => true
  | .bool a, .bool b => a == b
  | .num a, .num b => a == b
  | .str a, .str b => a == b
  | .arr xs, .arr ys => JValue.beqList xs ys
  | .obj fs, .obj gs => JValue.beqObj fs gs
  | _, _ => false

/-- Boolean equality on JSON arrays. -/
def JValue.beqList : List JValue → List JValue → Bool
  | [], [] => true
  | x :: xs, y :: ys => JValue.beq x y && JValue.beqList xs ys
  | _, _ => false

/-- Boolean equality on JSON object bindings. -/
def JValue.beqObj : List (Str × JValue) → List (Str × JValue) → Bool
  | [], [] => true
  | (k1, v1) :: fs, (k2, v2) :: gs =>
      k1 == k2 && JValue.beq v1 v2 && JValue.beqObj fs gs
  | _, _ => false

end

mutual

theorem JValue.beq_iff : ∀ (a b : JValue), JValue.beq a b = true ↔ a = b
  | .null, b => by cases b <;> simp [JValue.beq]
  | .bool x, b => by cases b <;> simp [JValue.beq]
  | .num x, b => by cases b <;> simp [JValue.beq]
  | .str x, b => by cases b <;> simp [JValue.beq]
  | .arr xs, b => by
    cases b with
    | arr ys => simpa [JValue.beq] using JValue.beqList_iff xs ys
    | null => simp [JValue.beq]
    | bool y => simp [JValue.beq]
    | num y => simp [JValue.beq]
    | str y => simp [JValue.beq]
    | obj gs => simp [JValue.beq]
  | .obj fs, b => by
    cases b with
    | obj gs => simpa [JValue.beq] using JValue.beqObj_iff fs gs
    | null => simp [JValue.beq]
    | bool y => simp [JValue.beq]
    | num y => simp [JValue.beq]
    | str y => simp [JValue.beq]
    | arr ys => simp [JValue.beq]

theorem JValue.beqList_iff :
    ∀ (xs ys : List JValue), JValue.beqList xs ys = true ↔ xs = ys
  | [], ys => by cases ys <;> simp [JValue.beqList]
  | x :: xs, ys => by
    cases ys with
    | nil => simp [JValue.beqList]
    | cons y ys =>
      simp only [JValue.beqList, Bool.and_eq_true, List.cons.injEq]
      rw [JValue.beq_iff x y, JValue.beqList_iff xs ys]

theorem JValue.beqObj_iff :
    ∀ (fs gs : List (Str × JValue)), JValue.beqObj fs gs = true ↔ fs = gs
  | [], gs => by cases gs <;> simp [JValue.beqObj]
  | (k1, v1) :: fs, gs => by
    cases gs with
    | nil => simp [JValue.beqObj]
    | cons g gs =>
      cases g with
      | mk k2 v2 =>
        simp only [JValue.beqObj, Bool.and_eq_true, List.cons.injEq,
          Prod.mk.injEq, beq_iff_eq]
        rw [JValue.beq_iff v1 v2, JValue.beqObj_iff fs gs]
        try tauto

end

instance : DecidableEq JValue := fun a b =>
  decidable_of_iff _ (JValue.beq_iff a b)

/-- Python dict lookup `d.get(k)` (keys are unique by construction). -/
def dictGet (fs : List (Str × JValue)) (k : Str) : Option JValue :=
  match fs.find? (fun p => p.1 == k) with
  | some p => some p.2
  | none => none

/-- Python dict insertion `d[k] = v`: updates the existing binding in place,
otherwise appends. -/
def dictSet (fs : List (Str × JValue)) (k : Str) (v : JValue) :
    List (Str × JValue) :=
  if (fs.find? (fun p => p.1 == k)).isSome then
    fs.map (fun p => if p.1 == k then (k, v) else p)
  else fs ++ [(k, v)]

/-- Python `k in d` on a dict. -/
def hasKey (fs : List (Str × JValue)) (k : Str) : Bool := (dictGet fs k).isSome

/-- Drop the binding of key `k` (used only to state theorems comparing parsed
decisions up to their `_reasoning` field). -/
def eraseKey (fs : List (Str × JValue)) (k : Str) : List (Str × JValue) :=
  fs.filter (fun p => p.1 != k)

/-- Python truthiness of a JSON-derived value (`if not x`). A numeric lexeme
is falsy exactly when it denotes zero; `NaN` and `Infinity` are truthy. -/
def numIsZero (lex : Str) : Bool :=
  if lex.contains 'N' || lex.contains 'I' then false
  else (lex.takeWhile (fun c => c != 'e' && c != 'E')).all
    (fun c => c == '0' || c == '.' || c == '-' || c == '+')

/-- Python truthiness for `JValue`. -/
def jTruthy : JValue → Bool
  | .null => false
  | .bool b => b
  | .num lex => !(numIsZero lex)
  | .str s => !s.isEmpty
  | .arr xs => !xs.isEmpty
  | .obj fs => !fs.isEmpty

/-- JSON insignificant whitespace. -/
def jsonWs (c : Char) : Bool := c == ' ' || c == '\t' || c == '\n' || c == '\r'

/-- Skip insignificant whitespace. -/
def skipWs (s : Str) : Str := s.dropWhile jsonWs

/-- Value of one hexadecimal digit. -/
def hexVal (c : Char) : Option Nat :=
  if '0' ≤ c ∧ c ≤ '9' then some (c.toNat - '0'.toNat)
  else if 'a' ≤ c ∧ c ≤ 'f' then some (c.toNat - 'a'.toNat + 10)
  else if 'A' ≤ c ∧ c ≤ 'F' then some (c.toNat - 'A'.toNat + 10)
  else none

/-- Body of a JSON string literal (after the opening quote), with strict-mode
escape handling: control characters are rejected, as in Python's default
`json.loads`. Fuel is the remaining input length. -/
def parseStringBody : Nat → Str → Option (Str × Str)
  | 0, _ => none
  | _ + 1, [] => none
  | fuel + 1, c :: rest =>
    if c = '"' then some ([], rest)
    else if c = '\\' then
      match rest with
      | [] => none
      | e :: rest2 =>
        let unesc : Option Char :=
          if e = '"' then some '"'
          else if e = '\\' then some '\\'
          else if e = '/' then some '/'
          else if e = 'b' then some '\x08'
          else if e = 'f' then some '\x0c'
          else if e = 'n' then some '\n'
          else if e = 'r' then some '\r'
          else if e = 't' then some '\t'
          else none
        match unesc with
        | some ch =>
          match parseStringBody fuel rest2 with
          | some (tail, r2) => some (ch :: tail, r2)
          | none => none
        | none =>
          if e = 'u' then
            match rest2 with
            | h1 :: h2 :: h3 :: h4 :: rest3 =>
              match hexVal h1, hexVal h2, hexVal h3, hexVal h4 with
              | some a, some b, some c2, some d =>
                match parseStringBody fuel rest3 with
                | some (tail, r2) =>
                  some (Char.ofNat (((a * 16 + b) * 16 + c2) * 16 + d) :: tail, r2)
                | none => none
              | _, _, _, _ => none
            | _ => none
          else none
    else if c.toNat < 0x20 then none
    else
      match parseStringBody fuel rest with
      | some (tail, r2) => some (c :: tail, r2)
      | none => none

/-- JSON number lexeme, mirroring Python's `NUMBER_RE`: an optional sign, an
integer part (`0` or a nonzero-led digit run), then optional fraction and
exponent parts that are only consumed when complete. -/
def parseNumber (s : Str) : Option (Str × Str) :=
  let (sign, s1) : Str × Str :=
    match s with
    | '-' :: r => (['-'], r)
    | _ => ([], s)
  match s1 with
  | [] => none
  | c :: rest =>
    if c = '0' then
      let (frac, s2) := numFrac rest
      let (ex, s3) := numExp s2
      some (sign ++ ['0'] ++ frac ++ ex, s3)
    else if c.isDigit then
      let ds := rest.takeWhile Char.isDigit
      let s2 := rest.dropWhile Char.isDigit
      let (frac, s3) := numFrac s2
      let (ex, s4) := numExp s3
      some (sign ++ (c :: ds) ++ frac ++ ex, s4)
    else none
where
  /-- Optional `.digits` part, only consumed when complete. -/
  numFrac (s : Str) : Str × Str :=
    match s with
    | '.' :: r =>
      let ds := r.takeWhile Char.isDigit
      if ds.isEmpty then ([], s)
      else ('.' :: ds, r.dropWhile Char.isDigit)
    | _ => ([], s)
  /-- Optional `[eE][+-]?digits` part, only consumed when complete. -/
  numExp (s : Str) : Str × Str :=
    match s with
    | e :: rest =>
      if e = 'e' ∨ e = 'E' then
        let (sg, r1) : Str × Str :=
          match rest with
          | '+' :: r => (['+'], r)
          | '-' :: r => (['-'], r)
          | _ => ([], rest)
        let ds := r1.takeWhile Char.isDigit
        if ds.isEmpty then ([], s)
        else (e :: (sg ++ ds), r1.dropWhile Char.isDigit)
      else ([], s)
    | [] => ([], s)

mutual

/-- One JSON value, mirroring Python's strict `json.loads` scanner. -/
def parseValue : Nat → Str → Option (JValue × Str)
  | 0, _ => none
  | fuel + 1, s0 =>
    let s := skipWs s0
    if (lit "true").isPrefixOf s then some (.bool true, s.drop 4)
    else if (lit "false").isPrefixOf s then some (.bool false, s.drop 5)
    else if (lit "null").isPrefixOf s then some (.null, s.drop 4)
    else if (lit "NaN").isPrefixOf s then some (.num (lit "NaN"), s.drop 3)
    else if (lit "Infinity").isPrefixOf s then
      some (.num (lit "Infinity"), s.drop 8)
    else if (lit "-Infinity").isPrefixOf s then
      some (.num (lit "-Infinity"), s.drop 9)
    else
      match s with
      | '"' :: rest =>
        match parseStringBody (rest.length + 1) rest with
        | some (cs, r) => some (.str cs, r)
        | none => none
      | '\x7b' :: rest =>
        (match skipWs rest with
         | '\x7d' :: r => some (.obj [], r)
         | _ => parseMembers fuel rest [])
      | '[' :: rest =>
        (match skipWs rest with
         | ']' :: r => some (.arr [], r)
         | _ => parseElems fuel rest [])
      | _ =>
        match parseNumber s with
        | some (lex, rest) => some (.num lex, rest)
        | none => none

/-- Members of a JSON object after the opening brace (non-empty case),
accumulating with Python-dict insertion. -/
def parseMembers : Nat → Str → List (Str × JValue) → Option (JValue × Str)
  | 0, _, _ => none
  | fuel + 1, s, acc =>
    match skipWs s with
    | '"' :: rest =>
      match parseStringBody (rest.length + 1) rest with
      | some (k, r1) =>
        (match skipWs r1 with
         | ':' :: r2 =>
           (match parseValue fuel r2 with
            | some (v, r3) =>
              let acc2 := dictSet acc k v
              (match skipWs r3 with
               | ',' :: r4 => parseMembers fuel r4 acc2
               | '\x7d' :: r4 => some (.obj acc2, r4)
               | _ => none)
            | none => none)
         | _ => none)
      | none => none
    | _ => none

/-- Elements of a JSON array after the opening bracket (non-empty case). -/
def parseElems : Nat → Str → List JValue → Option (JValue × Str)
  | 0, _, _ => none
  | fuel + 1, s, acc =>
    match parseValue fuel s with
    | some (v, r) =>
      (match skipWs r with
       | ',' :: r2 => parseElems fuel r2 (acc ++ [v])
       | ']' :: r2 => some (.arr (acc ++ [v]), r2)
       | _ => none)
    | none => none

end

/-- Python strict `json.loads`: one value, then only trailing whitespace. -/
def jsonLoads (s : Str) : Option JValue :=
  match parseValue (s.length + 1) s with
  | some (v, rest) => if (skipWs rest).isEmpty then some v else none
  | none => none

/-- Model of the character cleanup in `_parse_decision` (service lines
430-438). Faithful to this repository's file: the chain first collapses
newlines, carriage returns and tabs to spaces; source line 436 then lexes as
a single `replace` whose pattern is the literal `, '"').replace(` (the curly
double quotes are absent from the file), line 437 replaces a straight
apostrophe by itself twice (no-ops, kept for fidelity), and line 438
replaces en dash, em dash and non-breaking hyphen by `-`. -/
def cleanupSpecialChars (s : Str) : Str :=
  let s1 := pyReplace (lit "\n") (lit " ") s
  let s2 := pyReplace (lit "\r") (lit " ") s1
  let s3 := pyReplace (lit "\t") (lit " ") s2
  let s4 := pyReplace (lit ", '\"').replace(") (lit "\"") s3
  let s5 := pyReplace (lit "'") (lit "'") s4
  let s6 := pyReplace (lit "'") (lit "'") s5
  let s7 := pyReplace (lit "–") (lit "-") s6
  let s8 := pyReplace (lit "—") (lit "-") s7
  pyReplace (lit "‑") (lit "-") s8

/-- The fenced-block markers looked for by `_parse_decision`. -/
def jsonFence : Str := lit "```json"

/-- Plain fence marker. -/
def plainFence : Str := lit "```"

/-- Step 1 of `_parse_decision`: strip the response, then take the interior
of the first ```json block if present, else of the first ``` block if
present, else the stripped text itself (service lines 416-422). -/
def extractWorking (response : Str) : Str :=
  let cleaned := pyStrip response
  if strContains jsonFence cleaned then
    pyStrip ((pySplit plainFence ((pySplit jsonFence cleaned).getD 1 [])).getD 0 [])
  else if strContains plainFence cleaned then
    pyStrip ((pySplit plainFence ((pySplit plainFence cleaned).getD 1 [])).getD 0 [])
  else cleaned

/-- A parsed decision: the Python dict returned by `_parse_decision`. -/
abbrev Decision : Type := List (Str × JValue)

/-- Attach `result["_reasoning"] = response[:2000]` (service lines 454, 460,
464). -/
def attachReasoning (fs : Decision) (response : Str) : Decision :=
  dictSet fs (lit "_reasoning") (.str (response.take 2000))

/-- Step 4 of `_parse_decision` (service lines 449-468): shape resolution of
the parsed document. Mirrors the `if/elif` chain: a dict whose `decisions`
key holds a list takes that branch only (falling through to `None` when the
list is empty or its head is not a dict); a non-empty bare list takes its
head when it is a dict; a dict with an `operation` key is returned as-is. -/
def handleDecisionShape (decision : JValue) (response : Str) : Option Decision :=
  match decision with
  | .obj fs =>
    match dictGet fs (lit "decisions") with
    | some (.arr ds) =>
      (match ds with
       | .obj efs :: _ => some (attachReasoning efs response)
       | _ => none)
    | _ =>
      if hasKey fs (lit "operation") then some (attachReasoning fs response)
      else none
  | .arr ds =>
    (match ds with
     | .obj efs :: _ => some (attachReasoning efs response)
     | _ => none)
  | _ => none

/-- Model of `_parse_decision` (service lines 404-468): extract the working
text from code fences, strict-parse it, on failure clean special characters
and strict-parse once more, reject falsy documents, then resolve the shape. -/
def parse_decision (response : Str) : Option Decision :=
  if response.isEmpty then none
  else
    let working := extractWorking response
    let parsed : Option JValue :=
      match jsonLoads working with
      | some v => some v
      | none => jsonLoads (cleanupSpecialChars working)
    match parsed with
    | none => none
    | some decision =>
      if !(jTruthy decision) then none
      else handleDecisionShape decision response

/-- Join of the `text` fields of blocks tagged `"text"` (service lines
392-397). Returns `none` when some collected `text` value is not a string,
in which case Python's `"\n".join` raises and the enclosing `try` yields
the empty string. Blocks that are not dicts, have no `"text"` tag, or whose
`text` key is missing (default `""`) are handled as the code does. -/
def joinTextBlocks : List JValue → Option (List Str)
  | [] => some []
  | block :: rest =>
    match block with
    | .obj bfs =>
      if dictGet bfs (lit "type") == some (.str (lit "text")) then
        match (dictGet bfs (lit "text")).getD (.str []) with
        | .str t =>
          (match joinTextBlocks rest with
           | some ts => some (t :: ts)
           | none => none)
        | _ => none
      else joinTextBlocks rest
    | _ => joinTextBlocks rest

/-- Python `"\n".join`. -/
def joinWith (sep : Str) : List Str → Str
  | [] => []
  | [t] => t
  | t :: rest => t ++ sep ++ joinWith sep rest

/-- Model of `_get_content_from_response` (service lines 384-401). The
result is a `JValue` because the Python function returns the raw `content`
value unchanged when it is truthy but neither a string nor a list; every
exception path (non-dict message, non-list truthy `choices`, a non-string
`text` in a block) is caught by the function's `try/except` and yields the
empty string, as does every falsy `content`. -/
def get_content_from_response (api : JValue) : JValue :=
  match api with
  | .obj fs =>
    let choices := (dictGet fs (lit "choices")).getD (.arr [])
    if jTruthy choices then
      match choices with
      | .arr (first :: _) =>
        (match first with
         | .obj cfs =>
           let msg := (dictGet cfs (lit "message")).getD (.obj [])
           (match msg with
            | .obj mfs =>
              let content := (dictGet mfs (lit "content")).getD (.str [])
              (match content with
               | .arr blocks =>
                 (match joinTextBlocks blocks with
                  | some ts => .str (joinWith (lit "\n") ts)
                  | none => .str [])
               | v => if jTruthy v then v else .str [])
            | _ => .str [])
         | _ => .str [])
      | _ => .str []
    else .str []
  | _ => .str []

/-- One accumulation step of `_extract_reasoning_from_response`: a candidate
string is kept when it is truthy and strips to a non-empty text, and is
appended stripped. -/
def keepStripped (v : Option JValue) : Option Str :=
  match v with
  | some (.str s) =>
    if !s.isEmpty && !(pyStrip s).isEmpty then some (pyStrip s) else none
  | _ => none

/-- Thinking blocks collected by strategy 2 of
`_extract_reasoning_from_response` (service lines 357-364). -/
def thinkingParts (content : Option JValue) : List Str :=
  match content with
  | some (.arr blocks) =>
    blocks.filterMap (fun block =>
      match block with
      | .obj bfs =>
        if dictGet bfs (lit "type") == some (.str (lit "thinking")) then
          keepStripped (dictGet bfs (lit "thinking"))
        else none
      | _ => none)
  | _ => []

/-- Thought parts collected by strategy 3 of
`_extract_reasoning_from_response` (service lines 366-373): entries of the
`parts` list that are dicts whose `thought` field is literally `True`. -/
def thoughtParts (parts : Option JValue) : List Str :=
  match parts with
  | some (.arr ps) =>
    ps.filterMap (fun part =>
      match part with
      | .obj pfs =>
        if dictGet pfs (lit "thought") == some (.bool true) then
          keepStripped (dictGet pfs (lit "text"))
        else none
      | _ => none)
  | _ => []

/-- Model of `_extract_reasoning_from_response` (service lines 329-381):
check the message's `reasoning` then `reasoning_content` string fields, then
`thinking` blocks of the content list, then `parts` entries flagged as
thoughts, in that order; keep every non-empty stripped match and join them
with a blank line; return the empty string when nothing matched or when the
response does not have a dict message in a non-empty choices list. -/
def extract_reasoning_from_response (api : JValue) : Str :=
  match api with
  | .obj fs =>
    (match dictGet fs (lit "choices") with
     | some (.arr (first :: _)) =>
       (match first with
        | .obj cfs =>
          (match dictGet cfs (lit "message") with
           | some (.obj mfs) =>
             let fieldParts := [dictGet mfs (lit "reasoning"),
               dictGet mfs (lit "reasoning_content")].filterMap keepStripped
             let allParts := fieldParts
               ++ thinkingParts (dictGet mfs (lit "content"))
               ++ thoughtParts (dictGet mfs (lit "parts"))
             if allParts.isEmpty then [] else joinWith (lit "\n\n") allParts
           | _ => [])
        | _ => [])
     | _ => [])
  | _ => []

/-- Change classification of `_process_and_save_item` lines 166-170, over the
already-extracted operation strings: both sides are lowercased for the
comparison, and the transition label is built from the lowercased forms. -/
def changeClassify (origOp newOp : Str) : Bool × Option Str :=
  let n := pyLower newOp
  let o := pyLower origOp
  let changed := decide (o ≠ n)
  (changed, if changed then some (o ++ lit "_to_" ++ n) else none)

/-- The `prompt_backtest_tasks` row (columns used by the engine). Timestamps
are modelled as `Option Nat`: `some` means a time was recorded. -/
structure TaskRow where
  status : String
  totalCount : Nat
  completedCount : Nat
  failedCount : Nat
  startedAt : Option Nat
  finishedAt : Option Nat
  errorMessage : Option Str
deriving Repr, DecidableEq, Inhabited

/-- One `prompt_backtest_items` row (columns used by the engine; the frozen
original-decision snapshot columns not read by it are omitted). -/
structure ItemRow where
  id : Nat
  status : String
  originalOperation : Option Str
  modifiedPrompt : Str
  newOperation : Option JValue := none
  newSymbol : Option JValue := none
  newTargetPortion : Option JValue := none
  newReasoning : Option JValue := none
  newDecisionJson : Option JValue := none
  decisionChanged : Option Bool := none
  changeType : Option Str := none
  errorMessage : Option Str := none
deriving Repr, DecidableEq, Inhabited

/-- The persistent state seen by one task's execution: its task row, its item
rows, and whether the referenced account row exists. -/
structure Db where
  task : TaskRow
  items : List ItemRow
  accountExists : Bool
deriving Repr, DecidableEq, Inhabited

/-- The result dict passed to `_save_item_result` (service lines 139-192):
exactly the keys the call sites populate. -/
structure SaveResult where
  success : Bool
  operation : Option JValue := none
  symbol : Option JValue := none
  targetPortion : Option JValue := none
  reasoning : Option Str := none
  decisionJson : Option JValue := none
  decisionChanged : Option Bool := none
  changeType : Option Str := none
  error : Option Str := none
  rawResponse : Option JValue := none
deriving Repr, DecidableEq

/-- Update of one item row by `_save_item_result` (service lines 205-228). -/
def applySaveToItem (it : ItemRow) (r : SaveResult) : ItemRow :=
  if r.success then
    { it with
      status := "completed"
      newOperation := r.operation
      newSymbol := r.symbol
      newTargetPortion := r.targetPortion
      newReasoning := r.reasoning.map JValue.str
      newDecisionJson := r.decisionJson
      decisionChanged := r.decisionChanged
      changeType := r.changeType }
  else
    { it with
      status := "failed"
      errorMessage := some ((r.error.getD (lit "Unknown error")).take 500)
      newReasoning :=
        match r.rawResponse with
        | some v => if jTruthy v then some v else it.newReasoning
        | none => it.newReasoning }

/-- Model of `_save_item_result` (service lines 195-230): one transaction
that looks the item up, and if it exists writes its result fields, sets the
terminal status, and applies one atomic counter increment on the task row —
`completed_count` on success, `failed_count` on failure. A missing item row
leaves the state untouched. -/
def save_item_result (db : Db) (itemId : Nat) (r : SaveResult) : Db :=
  match db.items.find? (fun it => it.id == itemId) with
  | none => db
  | some _ =>
    { db with
      items := db.items.map (fun it => if it.id == itemId then applySaveToItem it r else it)
      task :=
        if r.success then
          { db.task with completedCount := db.task.completedCount + 1 }
        else
          { db.task with failedCount := db.task.failedCount + 1 } }

/-- The per-item snapshot dispatched to a worker (service lines 67-75). -/
structure ItemData where
  itemId : Nat
  modifiedPrompt : Str
  originalOperation : Option Str
deriving Repr, DecidableEq

/-- Outcome of `_call_llm_with_config` as seen by the worker: the function
catches per-endpoint errors and returns the response document or `None`,
but exceptions from its prelude (endpoint construction, token-limit lookup)
can escape; `raise` models those. -/
inductive LLMEnv where
  | raise : Str → LLMEnv
  | respond : Option JValue → LLMEnv
deriving Repr, DecidableEq

/-- Result of the `try` body of `_process_and_save_item` (service lines
132-184): either the result dict passed to `_save_item_result`, or an
exception carrying its message and the value of the `content` variable at
raise time. -/
inductive BodyOutcome where
  | save : SaveResult → BodyOutcome
  | exc : Str → Option JValue → BodyOutcome
deriving Repr, DecidableEq

/-- Python `(x or "")` on an optional JSON value followed by a string method:
a missing or falsy value yields the empty string; a truthy string yields
itself; a truthy non-string makes the subsequent `.lower()` raise
`AttributeError` (`none` here). -/
def pyOrEmptyStr (v : Option JValue) : Option Str :=
  match v with
  | none => some []
  | some u =>
    if !(jTruthy u) then some []
    else
      match u with
      | .str s => some s
      | _ => none

/-- The `try` body of `_process_and_save_item` (service lines 132-184): call
the model, extract content and reasoning, reject missing or empty content,
parse the decision, classify the change, and build the result dict. A truthy
non-string content makes `_parse_decision(content)` raise `AttributeError`
(`content.strip()`), and a truthy non-string `operation` value makes
`.lower()` raise; both surface as `exc` with the current `content` value. -/
def processBody (env : LLMEnv) (item : ItemData) : BodyOutcome :=
  match env with
  | .raise e => .exc e none
  | .respond none =>
    .save { success := false, error := some (lit "LLM call failed - no response") }
  | .respond (some resp) =>
    let content := get_content_from_response resp
    let reasoning := extract_reasoning_from_response resp
    if !(jTruthy content) then
      .save { success := false, error := some (lit "LLM call failed - empty content") }
    else
      match content with
      | .str s =>
        (match parse_decision s with
         | none =>
           .save { success := false, error := some (lit "Failed to parse decision"),
                   rawResponse := some (.str (s.take 2000)) }
         | some decision =>
           match pyOrEmptyStr (dictGet decision (lit "operation")) with
           | none => .exc (lit "AttributeError: lower") (some (.str s))
           | some newOpRaw =>
             let cls := changeClassify (item.originalOperation.getD []) newOpRaw
             let finalReasoning := if !reasoning.isEmpty then reasoning else s.take 2000
             .save { success := true
                     operation := dictGet decision (lit "operation")
                     symbol := dictGet decision (lit "symbol")
                     targetPortion := dictGet decision (lit "target_portion_of_balance")
                     reasoning := some finalReasoning
                     decisionJson := some (.obj decision)
                     decisionChanged := some cls.1
                     changeType := cls.2 })
      | v => .exc (lit "AttributeError: strip") (some v)

/-- Model of `_process_and_save_item` (service lines 123-192) as the result
dict it hands to `_save_item_result`. The `except` handler converts an
exception into a failure dict with the message truncated to 500 characters
and `raw_response` set to `content[:2000]` when `content` is truthy — but
slicing a truthy non-string `content` itself raises `TypeError` inside the
handler, which escapes the worker (`Except.error`). -/
def process_and_save_item (env : LLMEnv) (item : ItemData) :
    Except Str SaveResult :=
  match processBody env item with
  | .save r => .ok r
  | .exc msg content =>
    match content with
    | none => .ok { success := false, error := some (msg.take 500) }
    | some v =>
      if !(jTruthy v) then .ok { success := false, error := some (msg.take 500) }
      else
        match v with
        | .str s =>
          .ok { success := false, error := some (msg.take 500),
                rawResponse := some (.str (s.take 2000)) }
        | .arr xs =>
          .ok { success := false, error := some (msg.take 500),
                rawResponse := some (.arr (xs.take 2000)) }
        | _ => .error (lit "TypeError: unsliceable content")

/-- The worker-pool loop of `_process_items_realtime` (service lines
100-120), with completion order abstracted to submission order: each item is
processed and saved; a worker that lets an exception escape is only logged
by the `as_completed` loop and leaves no trace in the store. The returned
list holds the state after each item-result commit. -/
def processItemsTrace (env : Nat → LLMEnv) (db : Db) :
    List ItemData → List Db
  | [] => []
  | d :: rest =>
    match process_and_save_item (env d.itemId) d with
    | .ok r =>
      let db2 := save_item_result db d.itemId r
      db2 :: processItemsTrace env db2 rest
    | .error _ => processItemsTrace env db rest

/-- The per-item snapshot taken before dispatch (service lines 67-75). -/
def toItemData (it : ItemRow) : ItemData :=
  { itemId := it.id, modifiedPrompt := it.modifiedPrompt,
    originalOperation := it.originalOperation }

/-- Model of `execute_backtest_task` (service lines 34-97) as the list of
states committed to the store, in order: the task is first marked `running`
with a start time; if the account row is missing it is then marked `failed`
with an error message and finish time and no item is processed; otherwise
the items still in `pending` status are dispatched and each item-result
commit is observable, and finally the task is marked `completed` with a
finish time. -/
def execute_backtest_task (env : Nat → LLMEnv) (db : Db) : List Db :=
  let dbRun : Db :=
    { db with task := { db.task with status := "running", startedAt := some 1 } }
  if !db.accountExists then
    let failedTask : TaskRow :=
      { dbRun.task with
        status := "failed"
        errorMessage := some (lit "Account not found")
        finishedAt := some 2 }
    [dbRun, { dbRun with task := failedTask }]
  else
    let pendingData := (dbRun.items.filter (fun it => it.status == "pending")).map toItemData
    let trace := processItemsTrace env dbRun pendingData
    let dbEnd := trace.getLastD dbRun
    let doneTask : TaskRow :=
      { dbEnd.task with
        status := "completed"
        finishedAt := some 2 }
    dbRun :: trace ++ [{ dbEnd with task := doneTask }]

/-- One entry of the `items` list of a create-task request, together with
whether the referenced `AIDecisionLog` row exists and (when it does) the
snapshot taken from it (only the column the engine later reads). -/
structure CreateInput where
  logExists : Bool
  operation : Option Str
  modifiedPrompt : Str
deriving Repr, DecidableEq

/-- One item row created by `create_backtest_task` (routes lines 211-225)
from the position-indexed input whose decision log exists: the row starts in
`pending` status with the original-decision snapshot taken at creation. -/
def mkCreateItem (p : Nat × CreateInput) : ItemRow :=
  { id := p.1
    status := "pending"
    originalOperation := p.2.operation
    modifiedPrompt := p.2.modifiedPrompt }

/-- Model of `create_backtest_task` (routes lines 158-237): a missing
account is a 404 (`none`); otherwise the task row is created in `pending`
status with `total_count = len(request.items)` and zero counters, and one
`pending` item row is created per input whose decision log exists — inputs
referencing a missing log are skipped with a warning, without reducing
`total_count`. -/
def create_backtest_task (accountExists : Bool) (inputs : List CreateInput) :
    Option Db :=
  if !accountExists then none
  else
    some
      { accountExists := true
        task :=
          { status := "pending"
            totalCount := inputs.length
            completedCount := 0
            failedCount := 0
            startedAt := none
            finishedAt := none
            errorMessage := none }
        items := (inputs.filter (fun i => i.logExists)).enum.map mkCreateItem }

/-- The JSON body returned by the retry endpoint. -/
inductive RetryResult where
  | alreadyRunning : RetryResult
  | nothingToRetry : RetryResult
  | retried : Nat → RetryResult
deriving Repr, DecidableEq

/-- Reset of one failed item by the retry endpoint (routes lines 469-478). -/
def resetItem (it : ItemRow) : ItemRow :=
  { it with
    status := "pending"
    errorMessage := none
    newOperation := none
    newSymbol := none
    newTargetPortion := none
    newReasoning := none
    newDecisionJson := none
    decisionChanged := none
    changeType := none }

/-- Model of `retry_failed_items` (routes lines 441-495): a running task is
rejected; with no failed items the state is returned unchanged with a
"nothing to retry" result; otherwise every failed item is reset to `pending`
with its result fields cleared, and the task returns to `pending` with
`failed_count` zeroed and the finish time cleared. -/
def retry_failed_items (db : Db) : Db × RetryResult :=
  if db.task.status == "running" then (db, .alreadyRunning)
  else
    let failed := db.items.filter (fun it => it.status == "failed")
    if failed.isEmpty then (db, .nothingToRetry)
    else
      ({ db with
         items := db.items.map
           (fun it => if it.status == "failed" then resetItem it else it)
         task :=
           { db.task with
             status := "pending"
             failedCount := 0
             finishedAt := none } },
       .retried failed.length)

/-- Modelled from the spec: the *intended* special-character normalization of
§4.2 step 3 ("collapse newlines/tabs/carriage-returns to spaces; replace
curly quotes with straight quotes; replace en/em/non-breaking dashes with a
plain hyphen"). The repository's source lost the curly-quote literals (see
`cleanupSpecialChars`); this definition follows the spec's words and exists
only to exhibit that divergence. -/
def cleanupSpecialCharsSpec (s : Str) : Str :=
  let s1 := pyReplace (lit "\n") (lit " ") s
  let s2 := pyReplace (lit "\r") (lit " ") s1
  let s3 := pyReplace (lit "\t") (lit " ") s2
  let s4 := pyReplace (lit "“") (lit "\"") s3
  let s5 := pyReplace (lit "”") (lit "\"") s4
  let s6 := pyReplace (lit "‘") (lit "'") s5
  let s7 := pyReplace (lit "’") (lit "'") s6
  let s8 := pyReplace (lit "–") (lit "-") s7
  let s9 := pyReplace (lit "—") (lit "-") s8
  pyReplace (lit "‑") (lit "-") s9

/-- Number of items of a list in a given status. -/
def countS (its : List ItemRow) (s : String) : Nat :=
  (its.filter (fun it => it.status == s)).length

/-- The task counters agree with the item statuses and the item count never
exceeds `total_count`. -/
def CountsInv (db : Db) : Prop :=
  db.task.completedCount = countS db.items "completed" ∧
  db.task.failedCount = countS db.items "failed" ∧
  db.items.length ≤ db.task.totalCount

/-- Item identifiers are pairwise distinct. -/
def ItemsWf (db : Db) : Prop := (db.items.map ItemRow.id).Nodup

/-- Every item status is one of the three lifecycle statuses. -/
def StatusWf (db : Db) : Prop :=
  ∀ it ∈ db.items, it.status = "pending" ∨ it.status = "completed" ∨
    it.status = "failed"

/-- The dispatch list is duplicate-free and refers to pending items. -/
def GoodList (db : Db) (L : List ItemData) : Prop :=
  (L.map ItemData.itemId).Nodup ∧
  ∀ d ∈ L, ∃ it ∈ db.items, it.id = d.itemId ∧ it.status = "pending"

theorem countS_cons (a : ItemRow) (its : List ItemRow) (s : String) :
    countS (a :: its) s = (if a.status == s then 1 else 0) + countS its s := by
  simp only [countS, List.filter]
  cases h : (a.status == s) <;> simp [h] <;> omega

theorem countS_le_length (its : List ItemRow) (s : String) :
    countS its s ≤ its.length := by
  simpa [countS] using List.length_filter_le _ its

theorem countS_disjoint_le (its : List ItemRow) :
    countS its "completed" + countS its "failed" ≤ its.length := by
  induction its with
  | nil => simp [countS]
  | cons a its ih =>
    rw [countS_cons, countS_cons]
    have : ¬ ((a.status == "completed") = true ∧ (a.status == "failed") = true) := by
      rintro ⟨h1, h2⟩
      rw [beq_iff_eq] at h1 h2
      rw [h1] at h2
      exact absurd h2 (by decide)
    cases h1 : (a.status == "completed") <;> cases h2 : (a.status == "failed") <;>
      simp_all <;> omega

theorem countS_partition (its : List ItemRow)
    (hsw : ∀ it ∈ its, it.status = "pending" ∨ it.status = "completed" ∨
      it.status = "failed") :
    countS its "pending" + countS its "completed" + countS its "failed"
      = its.length := by
  induction its with
  | nil => simp [countS]
  | cons a its ih =>
    have ha := hsw a (by simp)
    have htail : ∀ it ∈ its, it.status = "pending" ∨ it.status = "completed" ∨
        it.status = "failed" := fun it hit => hsw it (by simp [hit])
    have ih2 := ih htail
    rw [countS_cons, countS_cons, countS_cons]
    rcases ha with h | h | h <;> simp [h] <;> omega

theorem sumOk_of_counts (db : Db) (h : CountsInv db) :
    db.task.completedCount + db.task.failedCount ≤ db.task.totalCount := by
  obtain ⟨h1, h2, h3⟩ := h
  have := countS_disjoint_le db.items
  omega

theorem applySaveToItem_id (it : ItemRow) (r : SaveResult) :
    (applySaveToItem it r).id = it.id := by
  unfold applySaveToItem
  split <;> rfl

theorem applySaveToItem_status (it : ItemRow) (r : SaveResult) :
    (applySaveToItem it r).status = if r.success then "completed" else "failed" := by
  unfold applySaveToItem
  split <;> simp_all

theorem resetItem_id (it : ItemRow) : (resetItem it).id = it.id := rfl

theorem map_update_noop (its : List ItemRow) (tid : Nat) (f : ItemRow → ItemRow)
    (h : ∀ it ∈ its, ¬ it.id = tid) :
    its.map (fun it => if it.id == tid then f it else it) = its := by
  have : ∀ it ∈ its, (fun it => if it.id == tid then f it else it) it = id it := by
    intro it hit
    simp [h it hit]
  rw [List.map_congr_left this, List.map_id]

theorem countS_map_update (its : List ItemRow) (tid : Nat) (f : ItemRow → ItemRow)
    (hno : (its.map ItemRow.id).Nodup) (it0 : ItemRow) (h0 : it0 ∈ its)
    (hid : it0.id = tid) (p : String) :
    countS (its.map (fun it => if it.id == tid then f it else it)) p
      + (if it0.status == p then 1 else 0)
    = countS its p + (if (f it0).status == p then 1 else 0) := by
  induction its with
  | nil => cases h0
  | cons a its ih =>
    rw [List.map_cons, List.Nodup] at hno
    rcases List.mem_cons.mp h0 with rfl | h0'
    · have htid : (it0.id == tid) = true := by simp [hid]
      have hnot : ∀ it ∈ its, ¬ it.id = tid := by
        intro it hit hcon
        have : it0.id ∈ its.map ItemRow.id := by
          rw [hid, ← hcon]
          exact List.mem_map_of_mem ItemRow.id hit
        exact (List.nodup_cons.mp hno).1 this
      rw [List.map_cons, htid, if_pos rfl, map_update_noop its tid f hnot,
        countS_cons, countS_cons]
      omega
    · have hane : ¬ a.id = tid := by
        intro hcon
        have : it0.id ∈ its.map ItemRow.id := List.mem_map_of_mem ItemRow.id h0'
        rw [hid, ← hcon] at this
        exact (List.nodup_cons.mp hno).1 this
      have haneb : (a.id == tid) = false := by simp [hane]
      rw [List.map_cons, haneb]
      simp only [Bool.false_eq_true, if_false]
      rw [countS_cons, countS_cons]
      have := ih (List.nodup_cons.mp hno).2 h0'
      omega

theorem find?_isSome_of_mem (its : List ItemRow) (tid : Nat) (it0 : ItemRow)
    (h0 : it0 ∈ its) (hid : it0.id = tid) :
    (its.find? (fun it => it.id == tid)).isSome := by
  rw [List.find?_isSome]
  exact ⟨it0, h0, by simp [hid]⟩

theorem save_missing (db : Db) (tid : Nat) (r : SaveResult)
    (hfind : db.items.find? (fun it => it.id == tid) = none) :
    save_item_result db tid r = db := by
  unfold save_item_result
  rw [hfind]

theorem save_found (db : Db) (tid : Nat) (r : SaveResult)
    (h : (db.items.find? (fun it => it.id == tid)).isSome) :
    (save_item_result db tid r).items
      = db.items.map (fun it => if it.id == tid then applySaveToItem it r else it) ∧
    (save_item_result db tid r).task.completedCount
      = db.task.completedCount + (if r.success then 1 else 0) ∧
    (save_item_result db tid r).task.failedCount
      = db.task.failedCount + (if r.success then 0 else 1) := by
  obtain ⟨it1, hfind⟩ := Option.isSome_iff_exists.mp h
  unfold save_item_result
  rw [hfind]
  cases hr : r.success <;> simp [hr]

theorem save_task_fields (db : Db) (tid : Nat) (r : SaveResult) :
    (save_item_result db tid r).task.status = db.task.status ∧
    (save_item_result db tid r).task.startedAt = db.task.startedAt ∧
    (save_item_result db tid r).task.finishedAt = db.task.finishedAt ∧
    (save_item_result db tid r).task.totalCount = db.task.totalCount ∧
    (save_item_result db tid r).items.length = db.items.length ∧
    (save_item_result db tid r).accountExists = db.accountExists := by
  unfold save_item_result
  cases db.items.find? (fun it => it.id == tid) <;> cases hr : r.success <;>
    simp [hr]

theorem save_preserves_inv (db : Db) (tid : Nat) (r : SaveResult) (it0 : ItemRow)
    (h0 : it0 ∈ db.items) (hid : it0.id = tid) (hpend : it0.status = "pending")
    (hwf : ItemsWf db) (hsw : StatusWf db) (hcnt : CountsInv db) :
    ItemsWf (save_item_result db tid r) ∧ StatusWf (save_item_result db tid r) ∧
    CountsInv (save_item_result db tid r) ∧
    countS (save_item_result db tid r).items "pending" + 1
      = countS db.items "pending" ∧
    (∀ it ∈ db.items, ¬ it.id = tid → it ∈ (save_item_result db tid r).items) := by
  have hsome := find?_isSome_of_mem db.items tid it0 h0 hid
  obtain ⟨hitems, hcc, hfc⟩ := save_found db tid r hsome
  have hpendb : (it0.status == "pending") = true := by simp [hpend]
  have hidside : ∀ p : String,
      countS (save_item_result db tid r).items p + (if it0.status == p then 1 else 0)
        = countS db.items p + (if (applySaveToItem it0 r).status == p then 1 else 0) := by
    intro p
    rw [hitems]
    exact countS_map_update db.items tid _ hwf it0 h0 hid p
  have hsave_status := applySaveToItem_status it0 r
  refine ⟨?_, ?_, ?_, ?_, ?_⟩
  · unfold ItemsWf
    rw [hitems]
    have : (db.items.map (fun it => if it.id == tid then applySaveToItem it r else it)).map
        ItemRow.id = db.items.map ItemRow.id := by
      rw [List.map_map]
      refine List.map_congr_left ?_
      intro it _
      simp only [Function.comp_apply]
      split
      · exact applySaveToItem_id it r
      · rfl
    rw [this]
    exact hwf
  · intro it' hit'
    rw [hitems] at hit'
    obtain ⟨it, hit, heq⟩ := List.mem_map.mp hit'
    subst heq
    by_cases hc : it.id == tid
    · simp only [hc, if_pos]
      rw [applySaveToItem_status]
      cases r.success <;> simp
    · simp only [hc, if_neg]
      simp only [Bool.not_eq_true] at hc
      simp only [hc, Bool.false_eq_true, if_false]
      exact hsw it hit
  · obtain ⟨hc1, hc2, hc3⟩ := hcnt
    have hcompl := hidside "completed"
    have hfail := hidside "failed"
    have hfields := save_task_fields db tid r
    refine ⟨?_, ?_, ?_⟩
    · rw [hcc, hc1]
      have hps : (it0.status == "completed") = false := by
        simp [hpend]
      rw [hps] at hcompl
      rw [hsave_status] at hcompl
      cases hr : r.success <;> rw [hr] at hcompl <;> simp_all <;> omega
    · rw [hfc, hc2]
      have hps : (it0.status == "failed") = false := by
        simp [hpend]
      rw [hps] at hfail
      rw [hsave_status] at hfail
      cases hr : r.success <;> rw [hr] at hfail <;> simp_all <;> omega
    · rw [hfields.2.2.2.2.1, hfields.2.2.2.1]
      exact hc3
  · have hp := hidside "pending"
    rw [hpendb] at hp
    rw [hsave_status] at hp
    cases hr : r.success <;> rw [hr] at hp <;> simp_all
  · intro it hit hne
    rw [hitems]
    have : (if it.id == tid then applySaveToItem it r else it) = it := by
      simp [hne]
    rw [← this]
    exact List.mem_map_of_mem _ hit

/-- Boolean test that a worker resolved without an escaping exception. -/
def workerOk (e : Except Str SaveResult) : Bool :=
  match e with
  | .ok _ => true
  | .error _ => false

theorem trace_spec (env : Nat → LLMEnv) :
    ∀ (L : List ItemData) (db : Db), ItemsWf db → StatusWf db → CountsInv db →
      GoodList db L →
      (∀ st ∈ processItemsTrace env db L,
        ItemsWf st ∧ StatusWf st ∧ CountsInv st ∧
        st.task.status = db.task.status ∧ st.task.totalCount = db.task.totalCount ∧
        st.task.startedAt = db.task.startedAt ∧
        st.task.finishedAt = db.task.finishedAt ∧
        st.items.length = db.items.length ∧ st.accountExists = db.accountExists) ∧
      (ItemsWf ((processItemsTrace env db L).getLastD db) ∧
       StatusWf ((processItemsTrace env db L).getLastD db) ∧
       CountsInv ((processItemsTrace env db L).getLastD db) ∧
       ((processItemsTrace env db L).getLastD db).task.status = db.task.status ∧
       ((processItemsTrace env db L).getLastD db).task.totalCount
         = db.task.totalCount ∧
       ((processItemsTrace env db L).getLastD db).task.startedAt
         = db.task.startedAt ∧
       ((processItemsTrace env db L).getLastD db).items.length
         = db.items.length ∧
       ((processItemsTrace env db L).getLastD db).accountExists
         = db.accountExists ∧
       ((∀ d ∈ L, workerOk (process_and_save_item (env d.itemId) d) = true) →
         countS ((processItemsTrace env db L).getLastD db).items "pending"
           + L.length = countS db.items "pending")) := by
  intro L
  induction L with
  | nil =>
    intro db hwf hsw hcnt hgood
    refine ⟨?_, ?_⟩
    · intro st hst
      simp [processItemsTrace] at hst
    · simp only [processItemsTrace, List.getLastD_nil]
      exact ⟨hwf, hsw, hcnt, by trivial, by trivial, by trivial, by trivial,
        by trivial, fun _ => by simp⟩
  | cons d rest ih =>
    intro db hwf hsw hcnt hgood
    obtain ⟨hnd, hmem⟩ := hgood
    obtain ⟨it0, hit0, hid0, hpend0⟩ := hmem d (by simp)
    cases hps : process_and_save_item (env d.itemId) d with
    | error e =>
      have htr : processItemsTrace env db (d :: rest)
          = processItemsTrace env db rest := by
        simp only [processItemsTrace, hps]
      have hgood' : GoodList db rest := by
        refine ⟨(List.nodup_cons.mp (by simpa using hnd)).2, ?_⟩
        intro d' hd'
        exact hmem d' (by simp [hd'])
      obtain ⟨hm, hf⟩ := ih db hwf hsw hcnt hgood'
      rw [htr]
      refine ⟨hm, hf.1, hf.2.1, hf.2.2.1, hf.2.2.2.1, hf.2.2.2.2.1,
        hf.2.2.2.2.2.1, hf.2.2.2.2.2.2.1, hf.2.2.2.2.2.2.2.1, ?_⟩
      intro hall
      have := hall d (by simp)
      rw [hps] at this
      simp [workerOk] at this
    | ok r =>
      have htr : processItemsTrace env db (d :: rest)
          = save_item_result db d.itemId r
            :: processItemsTrace env (save_item_result db d.itemId r) rest := by
        simp only [processItemsTrace, hps]
      have hpres := save_preserves_inv db d.itemId r it0 hit0 hid0 hpend0 hwf hsw hcnt
      have hfields := save_task_fields db d.itemId r
      have hgood' : GoodList (save_item_result db d.itemId r) rest := by
        refine ⟨(List.nodup_cons.mp (by simpa using hnd)).2, ?_⟩
        intro d' hd'
        obtain ⟨it', hit', hid', hpend'⟩ := hmem d' (by simp [hd'])
        refine ⟨it', ?_, hid', hpend'⟩
        refine hpres.2.2.2.2 it' hit' ?_
        intro hcon
        have hd'in : d'.itemId ∈ rest.map ItemData.itemId :=
          List.mem_map_of_mem ItemData.itemId hd'
        have : d.itemId ∈ rest.map ItemData.itemId := by
          rw [← hid', hcon] at hd'in
          exact hd'in
        exact (List.nodup_cons.mp (by simpa using hnd)).1 this
      obtain ⟨hm, hf⟩ := ih (save_item_result db d.itemId r)
        hpres.1 hpres.2.1 hpres.2.2.1 hgood'
      rw [htr]
      constructor
      · intro st hst
        rcases List.mem_cons.mp hst with rfl | hst'
        · exact ⟨hpres.1, hpres.2.1, hpres.2.2.1, hfields.1, hfields.2.2.2.1,
            hfields.2.1, hfields.2.2.1, hfields.2.2.2.2.1, hfields.2.2.2.2.2⟩
        · obtain ⟨a1, a2, a3, a4, a5, a6, a7, a8, a9⟩ := hm st hst'
          exact ⟨a1, a2, a3, a4.trans hfields.1, a5.trans hfields.2.2.2.1,
            a6.trans hfields.2.1, a7.trans hfields.2.2.1,
            a8.trans hfields.2.2.2.2.1, a9.trans hfields.2.2.2.2.2⟩
      · rw [List.getLastD_cons]
        refine ⟨hf.1, hf.2.1, hf.2.2.1, hf.2.2.2.1.trans hfields.1,
          hf.2.2.2.2.1.trans hfields.2.2.2.1,
          hf.2.2.2.2.2.1.trans hfields.2.1,
          hf.2.2.2.2.2.2.1.trans hfields.2.2.2.2.1,
          hf.2.2.2.2.2.2.2.1.trans hfields.2.2.2.2.2, ?_⟩
        intro hall
        have htail := hf.2.2.2.2.2.2.2.2 (fun d' hd' => hall d' (by simp [hd']))
        have hone := hpres.2.2.2.1
        simp only [List.length_cons]
        omega

theorem countS_map_reset (its : List ItemRow) :
    countS (its.map (fun it => if it.status == "failed" then resetItem it else it))
        "completed" = countS its "completed" ∧
    countS (its.map (fun it => if it.status == "failed" then resetItem it else it))
        "failed" = 0 ∧
    ((∀ it ∈ its, it.status = "pending" ∨ it.status = "completed" ∨
        it.status = "failed") →
      ∀ it ∈ its.map (fun it => if it.status == "failed" then resetItem it else it),
        it.status = "pending" ∨ it.status = "completed" ∨ it.status = "failed") := by
  induction its with
  | nil => exact ⟨rfl, rfl, fun _ it hit => by simp at hit⟩
  | cons a its ih =>
    obtain ⟨ih1, ih2, ih3⟩ := ih
    simp only [beq_iff_eq] at ih1 ih2 ih3
    refine ⟨?_, ?_, ?_⟩
    · rw [List.map_cons, countS_cons, countS_cons]
      by_cases hf : a.status = "failed"
      · have h1 : ((resetItem a).status == "completed") = false := by
          simp [resetItem]
        simp [hf, h1, ih1]
      · simp [hf, ih1]
    · rw [List.map_cons, countS_cons]
      by_cases hf : a.status = "failed"
      · have h1 : ((resetItem a).status == "failed") = false := by
          simp [resetItem]
        simp [hf, h1, ih2]
      · simp [hf, ih2]
    · intro hall it' hit'
      rw [List.map_cons] at hit'
      rcases List.mem_cons.mp hit' with rfl | h'
      · by_cases hf : a.status = "failed"
        · simp only [hf]
          simp [resetItem]
        · simp only [show (a.status == "failed") = false by simp [hf],
            Bool.false_eq_true, if_false]
          exact hall a (by simp)
      · simp only [beq_iff_eq] at h'
        exact ih3 (fun it hit => hall it (by simp [hit])) it' h'

theorem retry_preserves (db : Db) (hwf : ItemsWf db) (hsw : StatusWf db)
    (hcnt : CountsInv db) :
    ItemsWf (retry_failed_items db).1 ∧ StatusWf (retry_failed_items db).1 ∧
    CountsInv (retry_failed_items db).1 ∧
    (retry_failed_items db).1.task.totalCount = db.task.totalCount ∧
    (retry_failed_items db).1.items.length = db.items.length ∧
    (retry_failed_items db).1.task.completedCount = db.task.completedCount ∧
    (retry_failed_items db).1.accountExists = db.accountExists := by
  unfold retry_failed_items
  by_cases hrun : (db.task.status == "running") = true
  · simp only [hrun, if_pos]
    exact ⟨hwf, hsw, hcnt, by trivial, by trivial, by trivial, by trivial⟩
  · simp only [hrun, Bool.false_eq_true, if_false]
    by_cases hemp : (db.items.filter (fun it => it.status == "failed")).isEmpty = true
    · simp only [hemp, if_pos]
      exact ⟨hwf, hsw, hcnt, by trivial, by trivial, by trivial, by trivial⟩
    · simp only [hemp, Bool.false_eq_true, if_false]
      obtain ⟨hc, hfa, hstw⟩ := countS_map_reset db.items
      refine ⟨?_, ?_, ?_, by trivial, by simp, by trivial, by trivial⟩
      · unfold ItemsWf
        simp only
        have : (db.items.map
            (fun it => if it.status == "failed" then resetItem it else it)).map
            ItemRow.id = db.items.map ItemRow.id := by
          rw [List.map_map]
          refine List.map_congr_left ?_
          intro it _
          simp only [Function.comp_apply]
          split <;> rfl
        rw [this]
        exact hwf
      · intro it hit
        exact hstw hsw it hit
      · obtain ⟨h1, h2, h3⟩ := hcnt
        exact ⟨by rw [show ((({ db with
            items := db.items.map
              (fun it => if it.status == "failed" then resetItem it else it)
            task := { db.task with
              status := "pending"
              failedCount := 0
              finishedAt := none } } : Db), RetryResult.retried
                (db.items.filter (fun it => it.status == "failed")).length).1.task.completedCount)
              = db.task.completedCount from rfl, h1, ← hc], by rw [hfa], by simpa using h3⟩

theorem create_spec (inputs : List CreateInput) (db0 : Db)
    (h : create_backtest_task true inputs = some db0) :
    ItemsWf db0 ∧ StatusWf db0 ∧ CountsInv db0 ∧ db0.task.status = "pending" ∧
    db0.task.totalCount = inputs.length ∧ db0.task.completedCount = 0 ∧
    db0.task.failedCount = 0 ∧ db0.accountExists = true ∧
    db0.items.length = (inputs.filter (fun i => i.logExists)).length ∧
    (∀ it ∈ db0.items, it.status = "pending") := by
  unfold create_backtest_task at h
  simp only [Bool.not_true, Bool.false_eq_true, if_false, Option.some.injEq] at h
  subst h
  have hpend : ∀ it ∈ (inputs.filter (fun i => i.logExists)).enum.map mkCreateItem,
      it.status = "pending" := by
    intro it hit
    obtain ⟨p, _, rfl⟩ := List.mem_map.mp hit
    rfl
  have hzero : ∀ s : String, ¬ s = "pending" →
      countS ((inputs.filter (fun i => i.logExists)).enum.map mkCreateItem) s = 0 := by
    intro s hs
    unfold countS
    rw [List.length_eq_zero, List.filter_eq_nil]
    intro it hit
    simp only [hpend it hit, beq_iff_eq]
    intro hcon
    exact hs hcon.symm
  refine ⟨?_, ?_, ?_, rfl, rfl, rfl, rfl, rfl, by simp, hpend⟩
  · unfold ItemsWf
    simp only
    rw [List.map_map]
    have : (inputs.filter (fun i => i.logExists)).enum.map
        (ItemRow.id ∘ mkCreateItem)
        = (inputs.filter (fun i => i.logExists)).enum.map Prod.fst := by
      refine List.map_congr_left ?_
      intro p _
      rfl
    rw [this, List.enum_map_fst]
    exact List.nodup_range _
  · intro it hit
    exact Or.inl (hpend it hit)
  · refine ⟨?_, ?_, ?_⟩
    · show (0 : Nat) = countS _ "completed"
      rw [hzero "completed" (by decide)]
    · show (0 : Nat) = countS _ "failed"
      rw [hzero "failed" (by decide)]
    · show List.length _ ≤ inputs.length
      rw [List.length_map, List.enum_length]
      exact List.length_filter_le _ inputs

theorem execute_spec (env : Nat → LLMEnv) (db : Db)
    (hacc : db.accountExists = true)
    (hwf : ItemsWf db) (hsw : StatusWf db) (hcnt : CountsInv db) :
    (∀ st ∈ execute_backtest_task env db,
      ItemsWf st ∧ StatusWf st ∧ CountsInv st ∧
      st.task.totalCount = db.task.totalCount) ∧
    (ItemsWf ((execute_backtest_task env db).getLastD db) ∧
     StatusWf ((execute_backtest_task env db).getLastD db) ∧
     CountsInv ((execute_backtest_task env db).getLastD db) ∧
     ((execute_backtest_task env db).getLastD db).task.status = "completed" ∧
     ((execute_backtest_task env db).getLastD db).task.finishedAt.isSome = true ∧
     ((execute_backtest_task env db).getLastD db).task.totalCount
       = db.task.totalCount ∧
     ((execute_backtest_task env db).getLastD db).items.length
       = db.items.length ∧
     ((execute_backtest_task env db).getLastD db).accountExists
       = db.accountExists ∧
     ((∀ it ∈ db.items, it.status = "pending" →
         workerOk (process_and_save_item (env it.id) (toItemData it)) = true) →
       countS ((execute_backtest_task env db).getLastD db).items "pending" = 0)) := by
  have hne : (!db.accountExists) = false := by rw [hacc]; rfl
  set dbRun : Db :=
    { db with task := { db.task with status := "running", startedAt := some 1 } }
    with hdbRun
  have hexe : execute_backtest_task env db
      = dbRun :: processItemsTrace env dbRun
          ((dbRun.items.filter (fun it => it.status == "pending")).map toItemData)
        ++ [{ (processItemsTrace env dbRun
                ((dbRun.items.filter (fun it => it.status == "pending")).map
                  toItemData)).getLastD dbRun with
              task := { ((processItemsTrace env dbRun
                ((dbRun.items.filter (fun it => it.status == "pending")).map
                  toItemData)).getLastD dbRun).task with
                status := "completed", finishedAt := some 2 } }] := by
    unfold execute_backtest_task
    rw [hne]
    simp only [Bool.false_eq_true, if_false]
  set L : List ItemData :=
    (dbRun.items.filter (fun it => it.status == "pending")).map toItemData with hL
  have hrunwf : ItemsWf dbRun := hwf
  have hrunsw : StatusWf dbRun := hsw
  have hruncnt : CountsInv dbRun := hcnt
  have hgood : GoodList dbRun L := by
    constructor
    · rw [hL, List.map_map]
      have : (dbRun.items.filter (fun it => it.status == "pending")).map
          (ItemData.itemId ∘ toItemData)
          = (dbRun.items.filter (fun it => it.status == "pending")).map
              ItemRow.id := by
        refine List.map_congr_left ?_
        intro it _
        rfl
      rw [this]
      exact List.Nodup.sublist
        (List.Sublist.map ItemRow.id (List.filter_sublist dbRun.items)) hwf
    · intro d hd
      rw [hL] at hd
      obtain ⟨it, hit, rfl⟩ := List.mem_map.mp hd
      have := List.mem_filter.mp hit
      exact ⟨it, this.1, rfl, by simpa using this.2⟩
  obtain ⟨hmem, hfin⟩ := trace_spec env L dbRun hrunwf hrunsw hruncnt hgood
  have hLlen : L.length = countS dbRun.items "pending" := by
    rw [hL, List.length_map]
    rfl
  rw [hexe]
  constructor
  · intro st hst
    rcases List.mem_cons.mp hst with rfl | hst'
    · exact ⟨hwf, hsw, hcnt, rfl⟩
    · rcases List.mem_append.mp hst' with htr | hlast
      · obtain ⟨a1, a2, a3, _, a5, _⟩ := hmem st htr
        exact ⟨a1, a2, a3, a5⟩
      · have : st = { (processItemsTrace env dbRun L).getLastD dbRun with
            task := { ((processItemsTrace env dbRun L).getLastD dbRun).task with
              status := "completed", finishedAt := some 2 } } := by
          simpa using hlast
        subst this
        obtain ⟨b1, b2, b3, _, b5, _, b7, _, _⟩ := hfin
        refine ⟨b1, b2, ?_, b5⟩
        obtain ⟨c1, c2, c3⟩ := b3
        exact ⟨c1, c2, by simpa [b5] using c3⟩
  · have hcat : (dbRun :: processItemsTrace env dbRun L
        ++ [{ (processItemsTrace env dbRun L).getLastD dbRun with
              task := { ((processItemsTrace env dbRun L).getLastD dbRun).task with
                status := "completed", finishedAt := some 2 } }]).getLastD db
        = { (processItemsTrace env dbRun L).getLastD dbRun with
            task := { ((processItemsTrace env dbRun L).getLastD dbRun).task with
              status := "completed", finishedAt := some 2 } } := by
      rw [show dbRun :: processItemsTrace env dbRun L
          ++ [{ (processItemsTrace env dbRun L).getLastD dbRun with
                task := { ((processItemsTrace env dbRun L).getLastD dbRun).task with
                  status := "completed", finishedAt := some 2 } }]
          = (dbRun :: processItemsTrace env dbRun L)
            ++ [{ (processItemsTrace env dbRun L).getLastD dbRun with
                task := { ((processItemsTrace env dbRun L).getLastD dbRun).task with
                  status := "completed", finishedAt := some 2 } }] from rfl]
      exact List.getLastD_concat _ _ _
    rw [hcat]
    obtain ⟨b1, b2, b3, _, b5, b6, b7, bacc, b8⟩ := hfin
    obtain ⟨c1, c2, c3⟩ := b3
    refine ⟨b1, b2, ⟨c1, c2, by simpa [b5] using c3⟩, rfl, rfl, b5, b7, bacc, ?_⟩
    intro hall
    have hworkers : ∀ d ∈ L, workerOk (process_and_save_item (env d.itemId) d)
        = true := by
      intro d hd
      rw [hL] at hd
      obtain ⟨it, hit, rfl⟩ := List.mem_map.mp hd
      have hm := List.mem_filter.mp hit
      exact hall it hm.1 (by simpa using hm.2)
    have := b8 hworkers
    rw [hLlen] at this
    show countS ((processItemsTrace env dbRun L).getLastD dbRun).items "pending" = 0
    omega

/-- C1 (amended): for every created task, at every observation point of an
execution pass — and of a retry pass followed by a second execution —
`completed_count + failed_count ≤ total_count` holds; the first pass ends in
the terminal status `completed`; and the counters reach equality with
`total_count` at the terminal state provided no input decision reference was
dropped at creation and every dispatched worker resolved without an escaping
exception. (The original claim's unconditional equality at terminal states
fails: dropped references leave `total_count` larger than the number of
items, see the counterexample.) -/
theorem C1_counter_invariant (inputs : List CreateInput)
    (env1 env2 : Nat → LLMEnv) (db0 : Db)
    (hcreate : create_backtest_task true inputs = some db0) :
    (∀ st ∈ db0 :: execute_backtest_task env1 db0,
       st.task.completedCount + st.task.failedCount ≤ st.task.totalCount) ∧
    (∀ st ∈ (retry_failed_items ((execute_backtest_task env1 db0).getLastD db0)).1
        :: execute_backtest_task env2
          (retry_failed_items ((execute_backtest_task env1 db0).getLastD db0)).1,
       st.task.completedCount + st.task.failedCount ≤ st.task.totalCount) ∧
    ((execute_backtest_task env1 db0).getLastD db0).task.status = "completed" ∧
    ((∀ i ∈ inputs, i.logExists = true) →
      ((∀ it ∈ db0.items, it.status = "pending" →
          workerOk (process_and_save_item (env1 it.id) (toItemData it)) = true) →
        ((execute_backtest_task env1 db0).getLastD db0).task.completedCount
          + ((execute_backtest_task env1 db0).getLastD db0).task.failedCount
          = ((execute_backtest_task env1 db0).getLastD db0).task.totalCount) ∧
      ((∀ it ∈ (retry_failed_items
            ((execute_backtest_task env1 db0).getLastD db0)).1.items,
          it.status = "pending" →
          workerOk (process_and_save_item (env2 it.id) (toItemData it)) = true) →
        ((execute_backtest_task env2 (retry_failed_items
            ((execute_backtest_task env1 db0).getLastD db0)).1).getLastD
          (retry_failed_items
            ((execute_backtest_task env1 db0).getLastD db0)).1).task.completedCount
          + ((execute_backtest_task env2 (retry_failed_items
              ((execute_backtest_task env1 db0).getLastD db0)).1).getLastD
            (retry_failed_items
              ((execute_backtest_task env1 db0).getLastD db0)).1).task.failedCount
          = ((execute_backtest_task env2 (retry_failed_items
              ((execute_backtest_task env1 db0).getLastD db0)).1).getLastD
            (retry_failed_items
              ((execute_backtest_task env1 db0).getLastD db0)).1).task.totalCount)) := by
  obtain ⟨hwf0, hsw0, hcnt0, hst0, htot0, hcc0, hfc0, hacc0, hlen0, hpend0⟩ :=
    create_spec inputs db0 hcreate
  obtain ⟨hm1, hf1⟩ := execute_spec env1 db0 hacc0 hwf0 hsw0 hcnt0
  obtain ⟨f1wf, f1sw, f1cnt, f1st, f1fin, f1tot, f1len, f1acc, f1pend⟩ := hf1
  obtain ⟨rwf, rsw, rcnt, rtot, rlen, rcc, racc⟩ :=
    retry_preserves ((execute_backtest_task env1 db0).getLastD db0) f1wf f1sw f1cnt
  have hraccT : (retry_failed_items
      ((execute_backtest_task env1 db0).getLastD db0)).1.accountExists = true := by
    rw [racc, f1acc, hacc0]
  obtain ⟨hm2, hf2⟩ := execute_spec env2 _ hraccT rwf rsw rcnt
  obtain ⟨f2wf, f2sw, f2cnt, f2st, f2fin, f2tot, f2len, f2acc, f2pend⟩ := hf2
  refine ⟨?_, ?_, f1st, ?_⟩
  · intro st hst
    rcases List.mem_cons.mp hst with rfl | hst'
    · exact sumOk_of_counts _ hcnt0
    · obtain ⟨_, _, hc, _⟩ := hm1 st hst'
      exact sumOk_of_counts st hc
  · intro st hst
    rcases List.mem_cons.mp hst with rfl | hst'
    · exact sumOk_of_counts _ rcnt
    · obtain ⟨_, _, hc, _⟩ := hm2 st hst'
      exact sumOk_of_counts st hc
  · intro hnodrop
    have hitems0 : db0.items.length = db0.task.totalCount := by
      rw [htot0, hlen0]
      rw [List.filter_length_eq_length.mpr]
      intro i hi
      simp [hnodrop i hi]
    constructor
    · intro hok1
      have hp0 := f1pend hok1
      have := countS_partition
        ((execute_backtest_task env1 db0).getLastD db0).items f1sw
      obtain ⟨c1, c2, _⟩ := f1cnt
      rw [hp0] at this
      rw [c1, c2, f1tot, ← hitems0]
      omega
    · intro hok2
      have hp2 := f2pend hok2
      have := countS_partition
        ((execute_backtest_task env2 (retry_failed_items
          ((execute_backtest_task env1 db0).getLastD db0)).1).getLastD
          (retry_failed_items
            ((execute_backtest_task env1 db0).getLastD db0)).1).items f2sw
      obtain ⟨c1, c2, _⟩ := f2cnt
      rw [hp2] at this
      rw [c1, c2, f2tot, rtot, f1tot, ← hitems0]
      have hlen2 := (f2len.trans rlen).trans f1len
      omega

/-- Inputs used by the C1 scenario theorems: one valid decision reference. -/
def c1inputs : List CreateInput :=
  [{ logExists := true, operation := some (lit "buy"), modifiedPrompt := lit "p" }]

/-- Environment in which every model call fails cleanly (returns `None`). -/
def noRespEnv : Nat → LLMEnv := fun _ => .respond none

/-- The task state created from `c1inputs`. -/
def c1db0 : Db := (create_backtest_task true c1inputs).getD default

/-- Inputs whose single decision reference is missing: the item is silently
dropped while `total_count` still counts it. -/
def c1BadInputs : List CreateInput :=
  [{ logExists := false, operation := none, modifiedPrompt := lit "p" }]

/-- The task state created from `c1BadInputs`: `total_count = 1`, no items. -/
def c1BadDb : Db := (create_backtest_task true c1BadInputs).getD default

/-- C1 (counterexample): when an input decision reference is dropped at
creation, the task still finishes in the terminal status `completed` with
`completed_count + failed_count = 0` strictly below `total_count = 1`,
refuting the claimed equality at terminal status. -/
theorem C1_counterexample :
    ((execute_backtest_task noRespEnv c1BadDb).getLastD c1BadDb).task.status
      = "completed" ∧
    ((execute_backtest_task noRespEnv c1BadDb).getLastD c1BadDb).task.completedCount
      + ((execute_backtest_task noRespEnv c1BadDb).getLastD
          c1BadDb).task.failedCount = 0 ∧
    ((execute_backtest_task noRespEnv c1BadDb).getLastD c1BadDb).task.totalCount
      = 1 := by
  decide

/-- C1 (witness): on a concrete one-item task whose model call fails cleanly,
the amended invariant theorem applies and yields counter equality at the
terminal state. -/
theorem C1_witness :
    ((execute_backtest_task noRespEnv c1db0).getLastD c1db0).task.completedCount
      + ((execute_backtest_task noRespEnv c1db0).getLastD c1db0).task.failedCount
      = ((execute_backtest_task noRespEnv c1db0).getLastD c1db0).task.totalCount := by
  have h := C1_counter_invariant c1inputs noRespEnv noRespEnv c1db0 (by decide)
  exact (h.2.2.2 (by decide)).1 (by decide)

theorem trace_task_fields (env : Nat → LLMEnv) :
    ∀ (L : List ItemData) (db : Db), ∀ st ∈ processItemsTrace env db L,
      st.task.status = db.task.status ∧
      st.task.startedAt = db.task.startedAt ∧
      st.task.finishedAt = db.task.finishedAt := by
  intro L
  induction L with
  | nil =>
    intro db st hst
    simp [processItemsTrace] at hst
  | cons d rest ih =>
    intro db st hst
    cases hps : process_and_save_item (env d.itemId) d with
    | error e =>
      rw [show processItemsTrace env db (d :: rest)
        = processItemsTrace env db rest by simp only [processItemsTrace, hps]] at hst
      exact ih db st hst
    | ok r =>
      rw [show processItemsTrace env db (d :: rest)
        = save_item_result db d.itemId r
          :: processItemsTrace env (save_item_result db d.itemId r) rest
        by simp only [processItemsTrace, hps]] at hst
      have hfields := save_task_fields db d.itemId r
      rcases List.mem_cons.mp hst with rfl | hst'
      · exact ⟨hfields.1, hfields.2.1, hfields.2.2.1⟩
      · obtain ⟨a1, a2, a3⟩ := ih (save_item_result db d.itemId r) st hst'
        exact ⟨a1.trans hfields.1, a2.trans hfields.2.1, a3.trans hfields.2.2.1⟩

theorem trace_getLastD_startedAt (env : Nat → LLMEnv) :
    ∀ (L : List ItemData) (db : Db),
      ((processItemsTrace env db L).getLastD db).task.startedAt
        = db.task.startedAt := by
  intro L
  induction L with
  | nil => intro db; rfl
  | cons d rest ih =>
    intro db
    cases hps : process_and_save_item (env d.itemId) d with
    | error e =>
      rw [show processItemsTrace env db (d :: rest)
        = processItemsTrace env db rest by simp only [processItemsTrace, hps]]
      exact ih db
    | ok r =>
      rw [show processItemsTrace env db (d :: rest)
        = save_item_result db d.itemId r
          :: processItemsTrace env (save_item_result db d.itemId r) rest
        by simp only [processItemsTrace, hps]]
      rw [List.getLastD_cons, ih (save_item_result db d.itemId r)]
      exact (save_task_fields db d.itemId r).2.1

/-- C3 (amended): starting from a `pending` task, when the account row exists
the observable status sequence is `pending`, then `running` (for the start
commit and every per-item commit — per-item failed outcomes never change the
task status), then the terminal `completed`, with start and finish times
recorded; there is no partially-failed terminal status. When the account row
is missing, the task is first committed as `running` (with a start time) and
then moves to `failed` with a stored error message and no item processed —
the original claim's "directly from pending to failed without entering
running" does not hold, see the counterexample. -/
theorem C3_lifecycle (env : Nat → LLMEnv) (db : Db)
    (hp : db.task.status = "pending") :
    (db.accountExists = true →
      ∃ n, (db :: execute_backtest_task env db).map (fun st => st.task.status)
        = "pending" :: List.replicate (n + 1) "running" ++ ["completed"] ∧
      (∀ st ∈ execute_backtest_task env db, st.task.startedAt.isSome = true) ∧
      ((execute_backtest_task env db).getLastD db).task.finishedAt.isSome
        = true) ∧
    (db.accountExists = false →
      (db :: execute_backtest_task env db).map (fun st => st.task.status)
        = ["pending", "running", "failed"] ∧
      ((execute_backtest_task env db).getLastD db).task.errorMessage
        = some (lit "Account not found") ∧
      (∀ st ∈ execute_backtest_task env db, st.items = db.items) ∧
      (∀ st ∈ execute_backtest_task env db, st.task.startedAt.isSome = true)) := by
  constructor
  · intro hacc
    have hne : (!db.accountExists) = false := by rw [hacc]; rfl
    set dbRun : Db :=
      { db with task := { db.task with status := "running", startedAt := some 1 } }
      with hdbRun
    set L : List ItemData :=
      (dbRun.items.filter (fun it => it.status == "pending")).map toItemData
      with hL
    have hexe : execute_backtest_task env db
        = dbRun :: processItemsTrace env dbRun L
          ++ [{ (processItemsTrace env dbRun L).getLastD dbRun with
                task := { ((processItemsTrace env dbRun L).getLastD dbRun).task with
                  status := "completed", finishedAt := some 2 } }] := by
      unfold execute_backtest_task
      rw [hne]
      simp only [Bool.false_eq_true, if_false]
    have hflds := trace_task_fields env L dbRun
    refine ⟨(processItemsTrace env dbRun L).length, ?_, ?_, ?_⟩
    · rw [hexe]
      simp only [List.map_cons, List.map_append, List.map_cons, List.map_nil, hp]
      have hrepl : (processItemsTrace env dbRun L).map (fun st => st.task.status)
          = List.replicate (processItemsTrace env dbRun L).length "running" := by
        have : ∀ b ∈ (processItemsTrace env dbRun L).map (fun st => st.task.status),
            b = "running" := by
          intro b hb
          obtain ⟨st, hst, rfl⟩ := List.mem_map.mp hb
          exact (hflds st hst).1
        rw [← List.length_map (processItemsTrace env dbRun L)
          (fun st => st.task.status)]
        exact List.eq_replicate_of_mem this
      rw [hrepl, List.replicate_succ]
      rfl
    · intro st hst
      rw [hexe] at hst
      rcases List.mem_cons.mp hst with rfl | hst'
      · rfl
      · rcases List.mem_append.mp hst' with htr | hlast
        · rw [(hflds st htr).2.1]
          rfl
        · have : st = { (processItemsTrace env dbRun L).getLastD dbRun with
              task := { ((processItemsTrace env dbRun L).getLastD dbRun).task with
                status := "completed", finishedAt := some 2 } } := by
            simpa using hlast
          subst this
          show ((processItemsTrace env dbRun L).getLastD dbRun).task.startedAt.isSome
            = true
          rw [trace_getLastD_startedAt env L dbRun]
          rfl
    · rw [hexe]
      rw [show dbRun :: processItemsTrace env dbRun L
          ++ [{ (processItemsTrace env dbRun L).getLastD dbRun with
                task := { ((processItemsTrace env dbRun L).getLastD dbRun).task with
                  status := "completed", finishedAt := some 2 } }]
          = (dbRun :: processItemsTrace env dbRun L)
            ++ [{ (processItemsTrace env dbRun L).getLastD dbRun with
                task := { ((processItemsTrace env dbRun L).getLastD dbRun).task with
                  status := "completed", finishedAt := some 2 } }] from rfl,
        List.getLastD_concat]
      rfl
  · intro hacc
    have hne : (!db.accountExists) = true := by rw [hacc]; rfl
    have hexe : execute_backtest_task env db
        = [{ db with
             task := { db.task with
                       status := "running"
                       startedAt := some 1 } },
           { db with
             task := { db.task with
                       status := "failed"
                       startedAt := some 1
                       errorMessage := some (lit "Account not found")
                       finishedAt := some 2 } }] := by
      unfold execute_backtest_task
      rw [hne]
      simp only [if_true]
    rw [hexe]
    refine ⟨by simp [hp], by simp [List.getLastD_cons], ?_, ?_⟩
    · intro st hst
      rcases List.mem_cons.mp hst with rfl | hst'
      · rfl
      · rcases List.mem_cons.mp hst' with rfl | h
        · rfl
        · simp at h
    · intro st hst
      rcases List.mem_cons.mp hst with rfl | hst'
      · rfl
      · rcases List.mem_cons.mp hst' with rfl | h
        · rfl
        · simp at h

/-- A one-item pending task row used by the C3 scenario theorems. -/
def c3task : TaskRow :=
  { status := "pending", totalCount := 1, completedCount := 0, failedCount := 0,
    startedAt := none, finishedAt := none, errorMessage := none }

/-- A pending item used by the C3 scenario theorems. -/
def c3item : ItemRow :=
  { id := 0, status := "pending", originalOperation := some (lit "buy"),
    modifiedPrompt := lit "p" }

/-- A pending task whose account row exists. -/
def c3okDb : Db := { task := c3task, items := [c3item], accountExists := true }

/-- A pending task whose account row is missing at execution time. -/
def c3badDb : Db := { task := c3task, items := [c3item], accountExists := false }

/-- C3 (counterexample): with the account missing, the committed status
sequence of the execution is `running` then `failed` — the task is
observably committed in `running` status (with its start time recorded)
before moving to `failed`, refuting "moves directly from pending to failed
without entering running". -/
theorem C3_counterexample :
    (execute_backtest_task noRespEnv c3badDb).map (fun st => st.task.status)
      = ["running", "failed"] ∧
    (execute_backtest_task noRespEnv c3badDb).map
      (fun st => st.task.startedAt.isSome) = [true, true] := by
  decide

/-- C3 (witness): the amended lifecycle theorem applied to a concrete
pending one-item task with an existing account records a finish time at the
terminal state. -/
theorem C3_witness :
    ((execute_backtest_task noRespEnv c3okDb).getLastD c3okDb).task.finishedAt.isSome
      = true := by
  obtain ⟨n, _, _, h3⟩ := (C3_lifecycle noRespEnv c3okDb (by decide)).1 (by decide)
  exact h3

/-- C10: one invocation of `_save_item_result` is a single transaction: when
the referenced item row does not exist nothing is written and no counter
moves; otherwise the item's result fields and terminal status (`completed`
on success, `failed` on failure) and exactly one increment of the matching
task counter are applied together in that one transition — other items and
the task's status and `total_count` are untouched. -/
theorem C10_save_item_result (db : Db) (itemId : Nat) (r : SaveResult) :
    (db.items.find? (fun it => it.id == itemId) = none →
      save_item_result db itemId r = db) ∧
    ((db.items.find? (fun it => it.id == itemId)).isSome →
      (save_item_result db itemId r).items
        = db.items.map
            (fun it => if it.id == itemId then applySaveToItem it r else it) ∧
      (∀ it ∈ db.items, ¬ it.id = itemId →
        it ∈ (save_item_result db itemId r).items) ∧
      (∀ it ∈ (save_item_result db itemId r).items, it.id = itemId →
        it.status = (if r.success then "completed" else "failed")) ∧
      (save_item_result db itemId r).task.completedCount
        = db.task.completedCount + (if r.success then 1 else 0) ∧
      (save_item_result db itemId r).task.failedCount
        = db.task.failedCount + (if r.success then 0 else 1) ∧
      (save_item_result db itemId r).task.status = db.task.status ∧
      (save_item_result db itemId r).task.totalCount = db.task.totalCount) := by
  constructor
  · exact save_missing db itemId r
  · intro hsome
    obtain ⟨hitems, hcc, hfc⟩ := save_found db itemId r hsome
    have hfields := save_task_fields db itemId r
    refine ⟨hitems, ?_, ?_, hcc, hfc, hfields.1, hfields.2.2.2.1⟩
    · intro it hit hne
      rw [hitems]
      have : (if it.id == itemId then applySaveToItem it r else it) = it := by
        simp [hne]
      rw [← this]
      exact List.mem_map_of_mem _ hit
    · intro it' hit' hid'
      rw [hitems] at hit'
      obtain ⟨it, hit, heq⟩ := List.mem_map.mp hit'
      by_cases hc : it.id = itemId
      · rw [← heq]
        simp only [hc, beq_self_eq_true, if_pos]
        exact applySaveToItem_status it r
      · rw [show (it.id == itemId) = false by simp [hc]] at heq
        simp only [Bool.false_eq_true, if_false] at heq
        subst heq
        exact absurd hid' hc

/-- C10 (witness): saving a success result for the existing item `0` bumps
`completed_count` to 1 and leaves `failed_count` at 0. -/
theorem C10_witness :
    (save_item_result c3okDb 0 { success := true }).task.completedCount = 1 ∧
    (save_item_result c3okDb 0 { success := true }).task.failedCount = 0 := by
  have h := (C10_save_item_result c3okDb 0 { success := true }).2 (by decide)
  constructor
  · rw [h.2.2.2.1]
    decide
  · rw [h.2.2.2.2.1]
    decide

/-- C4: retrying a non-running task with zero failed items returns the
"nothing to retry" result and leaves the state unchanged; with failed items
present it re-queues exactly the failed ones — each reset to `pending` with
every result field (new operation, symbol, sizing, reasoning, decision JSON,
decision-changed flag, change type, error message) cleared — reports their
count, zeroes the task's `failed_count`, clears its finish time and returns
its status to `pending`, while items not in `failed` status, the completed
count and `total_count` are untouched. -/
theorem C4_retry (db : Db) (h : ¬ db.task.status = "running") :
    ((∀ it ∈ db.items, ¬ it.status = "failed") →
      retry_failed_items db = (db, RetryResult.nothingToRetry)) ∧
    ((∃ it0 ∈ db.items, it0.status = "failed") →
      (retry_failed_items db).2
        = RetryResult.retried
            (db.items.filter (fun it => it.status == "failed")).length ∧
      (retry_failed_items db).1.items
        = db.items.map
            (fun it => if it.status == "failed" then resetItem it else it) ∧
      (∀ it ∈ db.items, ¬ it.status = "failed" →
        it ∈ (retry_failed_items db).1.items) ∧
      (retry_failed_items db).1.task.status = "pending" ∧
      (retry_failed_items db).1.task.failedCount = 0 ∧
      (retry_failed_items db).1.task.finishedAt = none ∧
      (retry_failed_items db).1.task.completedCount = db.task.completedCount ∧
      (retry_failed_items db).1.task.totalCount = db.task.totalCount ∧
      (retry_failed_items db).1.task.startedAt = db.task.startedAt) ∧
    (∀ it, (resetItem it).status = "pending" ∧ (resetItem it).errorMessage = none ∧
      (resetItem it).newOperation = none ∧ (resetItem it).newSymbol = none ∧
      (resetItem it).newTargetPortion = none ∧ (resetItem it).newReasoning = none ∧
      (resetItem it).newDecisionJson = none ∧ (resetItem it).decisionChanged = none ∧
      (resetItem it).changeType = none ∧
      (resetItem it).originalOperation = it.originalOperation ∧
      (resetItem it).modifiedPrompt = it.modifiedPrompt ∧
      (resetItem it).id = it.id) := by
  have hrun : (db.task.status == "running") = false := by simp [h]
  refine ⟨?_, ?_, ?_⟩
  · intro hnofail
    unfold retry_failed_items
    rw [hrun]
    simp only [Bool.false_eq_true, if_false]
    have hemp : (db.items.filter (fun it => it.status == "failed")).isEmpty
        = true := by
      rw [List.isEmpty_iff, List.filter_eq_nil]
      intro it hit
      simp [hnofail it hit]
    rw [hemp]
    simp
  · rintro ⟨it0, h0, hf0⟩
    unfold retry_failed_items
    rw [hrun]
    simp only [Bool.false_eq_true, if_false]
    have hemp : (db.items.filter (fun it => it.status == "failed")).isEmpty
        = false := by
      rw [List.isEmpty_eq_false_iff_exists_mem]
      exact ⟨it0, List.mem_filter.mpr ⟨h0, by simp [hf0]⟩⟩
    rw [hemp]
    simp only [Bool.false_eq_true, if_false]
    refine ⟨by trivial, by trivial, ?_, by trivial, by trivial, by trivial,
      by trivial, by trivial, by trivial⟩
    intro it hit hne
    have : (if it.status == "failed" then resetItem it else it) = it := by
      simp [hne]
    rw [← this]
    exact List.mem_map_of_mem _ hit
  · intro it
    exact ⟨rfl, rfl, rfl, rfl, rfl, rfl, rfl, rfl, rfl, rfl, rfl, rfl⟩

/-- A finished task with one completed and one failed item, used by the C4
witness. -/
def c4db : Db :=
  { task := { status := "completed", totalCount := 2, completedCount := 1,
              failedCount := 1, startedAt := some 1, finishedAt := some 2,
              errorMessage := none }
    items := [{ id := 0, status := "completed",
                originalOperation := some (lit "buy"),
                modifiedPrompt := lit "p" },
              { id := 1, status := "failed",
                originalOperation := some (lit "sell"),
                modifiedPrompt := lit "q",
                errorMessage := some (lit "boom") }]
    accountExists := true }

/-- C4 (witness): retrying the concrete finished task with one failed item
re-queues exactly one item, zeroes `failed_count` and returns the task to
`pending` with its finish time cleared. -/
theorem C4_witness :
    (retry_failed_items c4db).2 = RetryResult.retried 1 ∧
    (retry_failed_items c4db).1.task.failedCount = 0 ∧
    (retry_failed_items c4db).1.task.status = "pending" ∧
    (retry_failed_items c4db).1.task.finishedAt = none := by
  have h := (C4_retry c4db (by decide)).2.1
    ⟨{ id := 1, status := "failed", originalOperation := some (lit "sell"),
       modifiedPrompt := lit "q", errorMessage := some (lit "boom") },
     by decide, rfl⟩
  refine ⟨?_, h.2.2.2.2.1, h.2.2.2.1, h.2.2.2.2.2.1⟩
  rw [h.1]
  decide

/-- C7: the change classification is deterministic and depends only on the
lowercased operation strings: `decision_changed` holds exactly when the
lowercased forms differ, `change_type` is the lowercase
`{original}_to_{new}` label when they differ and absent otherwise, and
original `"BUY"` against new `"buy"` yields no change and no label. -/
theorem C7_change_classification : ∀ (o n : Str),
    ((changeClassify o n).1 = true ↔ ¬ pyLower o = pyLower n) ∧
    ((changeClassify o n).1 = true →
      (changeClassify o n).2 = some (pyLower o ++ lit "_to_" ++ pyLower n)) ∧
    ((changeClassify o n).1 = false → (changeClassify o n).2 = none) ∧
    (∀ o' n', pyLower o = pyLower o' → pyLower n = pyLower n' →
      changeClassify o n = changeClassify o' n') ∧
    changeClassify (lit "BUY") (lit "buy") = (false, none) := by
  intro o n
  refine ⟨?_, ?_, ?_, ?_, by decide⟩
  · show decide (¬ pyLower o = pyLower n) = true ↔ ¬ pyLower o = pyLower n
    exact decide_eq_true_iff
  · intro h
    show (if decide (¬ pyLower o = pyLower n) = true then
        some (pyLower o ++ lit "_to_" ++ pyLower n) else none)
      = some (pyLower o ++ lit "_to_" ++ pyLower n)
    rw [show ((changeClassify o n).1 : Bool)
      = decide (¬ pyLower o = pyLower n) from rfl] at h
    rw [h]
    simp
  · intro h
    show (if decide (¬ pyLower o = pyLower n) = true then
        some (pyLower o ++ lit "_to_" ++ pyLower n) else none) = none
    rw [show ((changeClassify o n).1 : Bool)
      = decide (¬ pyLower o = pyLower n) from rfl] at h
    rw [h]
    simp
  · intro o' n' ho hn
    unfold changeClassify
    rw [ho, hn]

/-- C7 (witness): the classification theorem applied to `"buy"` against
`"HOLD"` yields the lowercase transition label. -/
theorem C7_witness :
    (changeClassify (lit "buy") (lit "HOLD")).2 = some (lit "buy_to_hold") := by
  have h := ((C7_change_classification (lit "buy") (lit "HOLD")).2.1) (by decide)
  rw [h]
  decide

theorem body_error_length (env : LLMEnv) (d : ItemData) (r : SaveResult)
    (h : processBody env d = .save r) :
    ∀ e, r.error = some e → e.length ≤ 500 := by
  intro e he
  unfold processBody at h
  cases env with
  | raise msg => cases h
  | respond o =>
    cases o with
    | none =>
      cases h
      cases he
      decide
    | some resp =>
      simp only at h
      by_cases htr : jTruthy (get_content_from_response resp) = true
      · rw [htr] at h
        simp only [Bool.not_true, Bool.false_eq_true, if_false] at h
        cases hcon : get_content_from_response resp with
        | str s =>
          rw [hcon] at h
          simp only at h
          cases hp : parse_decision s with
          | none =>
            rw [hp] at h
            simp only at h
            cases h
            cases he
            decide
          | some dec =>
            rw [hp] at h
            simp only at h
            cases hop : pyOrEmptyStr (dictGet dec (lit "operation")) with
            | none =>
              rw [hop] at h
              simp only at h
              cases h
            | some newOpRaw =>
              rw [hop] at h
              simp only at h
              cases h
              cases he
        | null => rw [hcon] at h; cases h
        | bool b => rw [hcon] at h; cases h
        | num x => rw [hcon] at h; cases h
        | arr xs => rw [hcon] at h; cases h
        | obj fs => rw [hcon] at h; cases h
      · rw [show jTruthy (get_content_from_response resp) = false by
          simpa using htr] at h
        simp only [Bool.not_false, if_true] at h
        cases h
        cases he
        decide

/-- C2 (amended): an exception inside the worker's `try` body is caught by
its handler and recorded as a failed-item outcome with the message truncated
to 500 characters — except when the `content` variable holds a truthy
non-text value at raise time, in which case the handler's own
`content[:2000]` raises and the exception escapes the worker; the
`as_completed` loop still only logs it, so sibling items and the task are
never aborted, but no failed-item outcome is recorded for that item. Every
error message a worker ever persists is at most 500 characters. -/
theorem C2_worker_boundary (env : LLMEnv) (d : ItemData) :
    (∀ msg, processBody env d = .exc msg none →
      process_and_save_item env d
        = .ok { success := false, error := some (msg.take 500) }) ∧
    (∀ msg s, processBody env d = .exc msg (some (.str s)) →
      process_and_save_item env d
        = .ok { success := false, error := some (msg.take 500),
                rawResponse := if s.isEmpty then none
                  else some (.str (s.take 2000)) }) ∧
    (∀ r, process_and_save_item env d = .ok r → ∀ e, r.error = some e →
      e.length ≤ 500) ∧
    (∀ e, process_and_save_item env d = .error e →
      ∃ msg v, processBody env d = .exc msg (some v) ∧ jTruthy v = true ∧
        (∀ s, ¬ v = .str s) ∧ (∀ xs, ¬ v = .arr xs)) ∧
    (∀ (env2 : Nat → LLMEnv) (db : Db) (L : List ItemData) e,
      process_and_save_item (env2 d.itemId) d = .error e →
      processItemsTrace env2 db (d :: L) = processItemsTrace env2 db L) := by
  refine ⟨?_, ?_, ?_, ?_, ?_⟩
  · intro msg h
    unfold process_and_save_item
    rw [h]
  · intro msg s h
    unfold process_and_save_item
    rw [h]
    cases hs : s.isEmpty
    · simp only [jTruthy, hs, Bool.not_false, Bool.not_true, Bool.false_eq_true,
        if_false]
    · simp only [jTruthy, hs, Bool.not_true, Bool.not_false, if_true]
  · intro r h e he
    unfold process_and_save_item at h
    cases hb : processBody env d with
    | save r' =>
      rw [hb] at h
      cases h
      exact body_error_length env d r hb e he
    | exc msg c =>
      rw [hb] at h
      cases c with
      | none =>
        simp only at h
        cases h
        cases he
        exact List.length_take_le 500 msg
      | some v =>
        simp only at h
        by_cases htr : jTruthy v = true
        · rw [htr] at h
          simp only [Bool.not_true, Bool.false_eq_true, if_false] at h
          cases v with
          | str s =>
            simp only at h
            cases h
            cases he
            exact List.length_take_le 500 msg
          | arr xs =>
            simp only at h
            cases h
            cases he
            exact List.length_take_le 500 msg
          | null => simp only at h; cases h
          | bool b => simp only at h; cases h
          | num x => simp only at h; cases h
          | obj fs => simp only at h; cases h
        · rw [show jTruthy v = false by simpa using htr] at h
          simp only [Bool.not_false, if_true] at h
          cases h
          cases he
          exact List.length_take_le 500 msg
  · intro e h
    unfold process_and_save_item at h
    cases hb : processBody env d with
    | save r' => rw [hb] at h; cases h
    | exc msg c =>
      rw [hb] at h
      cases c with
      | none => simp only at h; cases h
      | some v =>
        simp only at h
        by_cases htr : jTruthy v = true
        · rw [htr] at h
          simp only [Bool.not_true, Bool.false_eq_true, if_false] at h
          cases v with
          | str s => simp only at h; cases h
          | arr xs => simp only at h; cases h
          | null =>
            exact ⟨msg, .null, rfl, htr, fun s => by simp, fun xs => by simp⟩
          | bool b =>
            exact ⟨msg, .bool b, rfl, htr, fun s => by simp, fun xs => by simp⟩
          | num x =>
            exact ⟨msg, .num x, rfl, htr, fun s => by simp, fun xs => by simp⟩
          | obj fs =>
            exact ⟨msg, .obj fs, rfl, htr, fun s => by simp, fun xs => by simp⟩
        · rw [show jTruthy v = false by simpa using htr] at h
          simp only [Bool.not_false, if_true] at h
          cases h
  · intro env2 db L e h
    simp only [processItemsTrace, h]

deriving instance DecidableEq for Except

/-- A provider response whose message content is the number 5: a truthy
non-text, non-list content value. -/
def numContentResp : JValue :=
  .obj [(lit "choices",
    .arr [.obj [(lit "message", .obj [(lit "content", .num (lit "5"))])]])]

/-- Item snapshot used by the C2 scenario theorems. -/
def numContentItem : ItemData :=
  { itemId := 0, modifiedPrompt := lit "p", originalOperation := some (lit "buy") }

/-- C2 (counterexample): when the provider content is the truthy non-text
value `5`, the worker's exception handler itself raises while slicing the
diagnostic `content[:2000]`, so the exception escapes the worker instead of
being converted into a failed-item outcome, and no item-result commit is
recorded — refuting "any exception ... is caught at the worker boundary and
converted into a failed-item outcome". -/
theorem C2_counterexample :
    process_and_save_item (.respond (some numContentResp)) numContentItem
      = .error (lit "TypeError: unsliceable content") ∧
    processItemsTrace (fun _ => .respond (some numContentResp)) c3okDb
      [numContentItem] = [] := by
  decide

/-- A 600-character exception message. -/
def longMsg : Str := List.replicate 600 'x'

set_option maxRecDepth 8192 in
/-- C2 (witness): an exception escaping the model call's prelude is caught
by the worker's handler and stored as a failure whose message is truncated
to exactly 500 characters. -/
theorem C2_witness :
    process_and_save_item (.raise longMsg) numContentItem
      = .ok { success := false, error := some (longMsg.take 500) } ∧
    (longMsg.take 500).length = 500 := by
  have h := C2_worker_boundary (.raise longMsg) numContentItem
  exact ⟨h.1 longMsg (by decide), by decide⟩

/-- C8 (amended): content extraction never raises; for a response whose
first choice's message is a dict, a string content is returned as-is, a
list content yields the newline-join of its `"text"`-tagged blocks (or the
empty string when a block's text is not a string and the join raises into
the surrounding `try`), a missing or falsy content yields the empty string
— but a truthy content of any other shape is returned unchanged as a
non-text value, not as empty content (see the counterexample to the
original claim). -/
theorem C8_content_extraction (fs cfs mfs : List (Str × JValue))
    (rest : List JValue)
    (hch : dictGet fs (lit "choices") = some (.arr (JValue.obj cfs :: rest)))
    (hmsg : dictGet cfs (lit "message") = some (.obj mfs)) :
    (∀ s, dictGet mfs (lit "content") = some (.str s) →
      get_content_from_response (.obj fs) = .str s) ∧
    (∀ blocks, dictGet mfs (lit "content") = some (.arr blocks) →
      (∀ ts, joinTextBlocks blocks = some ts →
        get_content_from_response (.obj fs) = .str (joinWith (lit "\n") ts)) ∧
      (joinTextBlocks blocks = none →
        get_content_from_response (.obj fs) = .str [])) ∧
    (dictGet mfs (lit "content") = none →
      get_content_from_response (.obj fs) = .str []) ∧
    (∀ v, dictGet mfs (lit "content") = some v → jTruthy v = false →
      get_content_from_response (.obj fs) = .str []) ∧
    (∀ v, dictGet mfs (lit "content") = some v → jTruthy v = true →
      (∀ s, ¬ v = .str s) → (∀ bs, ¬ v = .arr bs) →
      get_content_from_response (.obj fs) = v) := by
  have hred : ∀ c, dictGet mfs (lit "content") = some c →
      get_content_from_response (.obj fs)
        = (match c with
           | .arr blocks =>
             (match joinTextBlocks blocks with
              | some ts => .str (joinWith (lit "\n") ts)
              | none => .str [])
           | v => if jTruthy v then v else .str []) := by
    intro c hc
    unfold get_content_from_response
    simp only
    rw [hch]
    simp only [Option.getD_some]
    rw [show jTruthy (JValue.arr (JValue.obj cfs :: rest)) = true from rfl]
    simp only [if_true]
    rw [hmsg]
    simp only [Option.getD_some]
    rw [hc]
    simp only [Option.getD_some]
  refine ⟨?_, ?_, ?_, ?_, ?_⟩
  · intro s hs
    rw [hred (.str s) hs]
    cases he : s.isEmpty
    · simp [jTruthy, he]
    · rw [List.isEmpty_iff] at he
      subst he
      simp [jTruthy]
  · intro blocks hb
    constructor
    · intro ts hts
      rw [hred (.arr blocks) hb]
      simp only [hts]
    · intro hts
      rw [hred (.arr blocks) hb]
      simp only [hts]
  · intro hc
    unfold get_content_from_response
    simp only
    rw [hch]
    simp only [Option.getD_some]
    rw [show jTruthy (JValue.arr (JValue.obj cfs :: rest)) = true from rfl]
    simp only [if_true]
    rw [hmsg]
    simp only [Option.getD_some]
    rw [hc]
    rfl
  · intro v hv htr
    rw [hred v hv]
    cases v with
    | arr blocks =>
      have hb : blocks = [] := by
        rw [← List.isEmpty_iff]
        simpa [jTruthy] using htr
      subst hb
      rfl
    | null => rfl
    | bool b =>
      cases b
      · rfl
      · exact absurd htr (by decide)
    | num x =>
      have hz : numIsZero x = true := by simpa [jTruthy] using htr
      show (if (!numIsZero x) = true then JValue.num x else JValue.str []) = JValue.str []
      rw [hz]
      rfl
    | str s =>
      have hs : s = [] := by
        rw [← List.isEmpty_iff]
        simpa [jTruthy] using htr
      subst hs
      rfl
    | obj gs =>
      have hg : gs = [] := by
        rw [← List.isEmpty_iff]
        simpa [jTruthy] using htr
      subst hg
      rfl
  · intro v hv htr hnstr hnarr
    rw [hred v hv]
    cases v with
    | arr blocks => exact absurd rfl (hnarr blocks)
    | str s => exact absurd rfl (hnstr s)
    | null => exact absurd htr (by decide)
    | bool b =>
      show (if jTruthy (JValue.bool b) = true then JValue.bool b else JValue.str [])
        = JValue.bool b
      rw [htr]
      rfl
    | num x =>
      show (if jTruthy (JValue.num x) = true then JValue.num x else JValue.str [])
        = JValue.num x
      rw [htr]
      rfl
    | obj gs =>
      show (if jTruthy (JValue.obj gs) = true then JValue.obj gs else JValue.str [])
        = JValue.obj gs
      rw [htr]
      rfl

/-- C8 (counterexample): for the response whose content is the number 5,
extraction returns the number itself, not empty content — refuting "any
other content shape yields empty content". -/
theorem C8_counterexample :
    get_content_from_response numContentResp = .num (lit "5") ∧
    ¬ get_content_from_response numContentResp = .str [] := by
  decide

/-- C8 (witness): the amended extraction theorem applied to a concrete
response with a plain string content returns that string. -/
theorem C8_witness :
    get_content_from_response
      (.obj [(lit "choices",
        .arr [.obj [(lit "message",
          .obj [(lit "content", .str (lit "hello"))])]])])
      = .str (lit "hello") := by
  have h := C8_content_extraction
    [(lit "choices",
      .arr [.obj [(lit "message", .obj [(lit "content", .str (lit "hello"))])]])]
    [(lit "message", .obj [(lit "content", .str (lit "hello"))])]
    [(lit "content", .str (lit "hello"))] [] (by decide) (by decide)
  exact h.1 (lit "hello") (by decide)

/-- A Claude-style thinking block. -/
def thinkBlock (t : Str) : JValue :=
  .obj [(lit "type", .str (lit "thinking")), (lit "thinking", .str t)]

/-- A plain text block. -/
def textBlock (c : Str) : JValue :=
  .obj [(lit "type", .str (lit "text")), (lit "text", .str c)]

/-- A response whose first choice's message has the given fields. -/
def msgResp (mfs : List (Str × JValue)) : JValue :=
  .obj [(lit "choices", .arr [.obj [(lit "message", .obj mfs)]])]

theorem pyStrip_nonempty_ne {t : Str} (h : (pyStrip t).isEmpty = false) :
    ¬ pyStrip t = [] := by
  intro hc
  rw [hc] at h
  exact absurd h (by decide)

theorem ne_nil_of_strip {t : Str} (h : (pyStrip t).isEmpty = false) :
    ¬ t = [] := by
  intro hc
  subst hc
  exact absurd h (by decide)

set_option synthInstance.maxHeartbeats 1000000 in
/-- C9: reasoning extraction is total and accumulates all non-empty matches
— direct reasoning string fields, then thinking blocks, then thought-flagged
parts — joined with a blank line in that fixed order, returning empty text
when nothing matches; a message whose content list holds one thinking block
and one text block yields the thinking text (stripped) as reasoning and the
text block's text as content, in either block order. -/
theorem C9_reasoning_extraction (t c r : Str) (ht : ¬ pyStrip t = []) :
    (extract_reasoning_from_response
        (msgResp [(lit "content", .arr [thinkBlock t, textBlock c])])
        = pyStrip t ∧
     extract_reasoning_from_response
        (msgResp [(lit "content", .arr [textBlock c, thinkBlock t])])
        = pyStrip t) ∧
    (get_content_from_response
        (msgResp [(lit "content", .arr [thinkBlock t, textBlock c])])
        = .str c ∧
     get_content_from_response
        (msgResp [(lit "content", .arr [textBlock c, thinkBlock t])])
        = .str c) ∧
    extract_reasoning_from_response
        (msgResp [(lit "content", .arr [textBlock c])]) = [] ∧
    (¬ pyStrip r = [] →
      extract_reasoning_from_response
          (msgResp [(lit "reasoning", .str r),
                    (lit "content", .arr [thinkBlock t])])
          = pyStrip r ++ lit "\n\n" ++ pyStrip t ∧
      extract_reasoning_from_response
          (msgResp [(lit "content", .arr [thinkBlock t]),
                    (lit "parts", .arr [.obj [(lit "thought", .bool true),
                      (lit "text", .str r)]])])
          = pyStrip t ++ lit "\n\n" ++ pyStrip r) := by
  have htne : ¬ t = [] := fun h => ht (by rw [h]; rfl)
  have h2 : (pyStrip t).isEmpty = false := by
    rw [← Bool.not_eq_true]
    simpa [List.isEmpty_iff] using ht
  refine ⟨⟨?_, ?_⟩, ⟨?_, ?_⟩, ?_, ?_⟩
  · simp +decide [extract_reasoning_from_response, msgResp, thinkBlock, textBlock,
      thinkingParts, thoughtParts, keepStripped, dictGet, joinWith,
      List.filterMap_cons, List.filterMap_nil, List.find?_cons, List.find?_nil,
      pyStrip_nonempty_ne h2, ne_nil_of_strip h2]
  · simp +decide [extract_reasoning_from_response, msgResp, thinkBlock, textBlock,
      thinkingParts, thoughtParts, keepStripped, dictGet, joinWith,
      List.filterMap_cons, List.filterMap_nil, List.find?_cons, List.find?_nil,
      pyStrip_nonempty_ne h2, ne_nil_of_strip h2]
  · simp +decide [get_content_from_response, msgResp, thinkBlock, textBlock,
      joinTextBlocks, dictGet, joinWith, jTruthy, List.find?_cons, List.find?_nil]
  · simp +decide [get_content_from_response, msgResp, thinkBlock, textBlock,
      joinTextBlocks, dictGet, joinWith, jTruthy, List.find?_cons, List.find?_nil]
  · simp +decide [extract_reasoning_from_response, msgResp, textBlock,
      thinkingParts, thoughtParts, keepStripped, dictGet, joinWith,
      List.filterMap_cons, List.filterMap_nil, List.find?_cons, List.find?_nil]
  · intro hr
    have h4 : (pyStrip r).isEmpty = false := by
      rw [← Bool.not_eq_true]
      simpa [List.isEmpty_iff] using hr
    constructor
    · simp +decide [extract_reasoning_from_response, msgResp, thinkBlock,
        thinkingParts, thoughtParts, keepStripped, dictGet, joinWith,
        List.filterMap_cons, List.filterMap_nil, List.find?_cons, List.find?_nil,
        pyStrip_nonempty_ne h2, ne_nil_of_strip h2,
        pyStrip_nonempty_ne h4, ne_nil_of_strip h4]
    · simp +decide [extract_reasoning_from_response, msgResp, thinkBlock,
        thinkingParts, thoughtParts, keepStripped, dictGet, joinWith,
        List.filterMap_cons, List.filterMap_nil, List.find?_cons, List.find?_nil,
        pyStrip_nonempty_ne h2, ne_nil_of_strip h2,
        pyStrip_nonempty_ne h4, ne_nil_of_strip h4]

/-- C9 (witness): the extraction theorem applied to a concrete message whose
content holds one thinking block and one text block. -/
theorem C9_witness :
    extract_reasoning_from_response
      (msgResp [(lit "content",
        .arr [thinkBlock (lit " think "), textBlock (lit "answer")])])
      = lit "think" ∧
    get_content_from_response
      (msgResp [(lit "content",
        .arr [thinkBlock (lit " think "), textBlock (lit "answer")])])
      = .str (lit "answer") := by
  have h := C9_reasoning_extraction (lit " think ") (lit "answer") (lit "r")
    (by decide)
  constructor
  · rw [h.1.1]
    decide
  · exact h.2.1.1

theorem findSub_prefix (sep rest : Str) (hsep : ¬ sep = []) :
    findSub sep (sep ++ rest) = some ([], rest) := by
  cases sep with
  | nil => exact absurd rfl hsep
  | cons c tl =>
    show findSub (c :: tl) ((c :: tl) ++ rest) = some ([], rest)
    rw [show (c :: tl) ++ rest = c :: (tl ++ rest) from rfl]
    unfold findSub
    rw [if_pos]
    · rw [show (c :: (tl ++ rest)) = (c :: tl) ++ rest from rfl,
        List.drop_left]
    · rw [List.isPrefixOf_iff_prefix]
      exact ⟨rest, rfl⟩

theorem findSub_cons_not_pref (sep : Str) (c : Char) (s : Str)
    (h : sep.isPrefixOf (c :: s) = false) :
    findSub sep (c :: s)
      = (findSub sep s).map (fun pq => (c :: pq.1, pq.2)) := by
  have hstep : findSub sep (c :: s)
      = match findSub sep s with
        | some (pre, post) => some (c :: pre, post)
        | none => none := by
    conv_lhs => unfold findSub
    rw [h]
    simp only [Bool.false_eq_true, if_false]
  rw [hstep]
  cases findSub sep s with
  | none => rfl
  | some pq => cases pq; rfl

theorem findSub_append_no_head (sep : Str) (ch : Char)
    (hsep : sep.head? = some ch) :
    ∀ (a b : Str), (∀ c ∈ a, ¬ c = ch) →
      findSub sep (a ++ b)
        = (findSub sep b).map (fun pq => (a ++ pq.1, pq.2)) := by
  intro a
  induction a with
  | nil =>
    intro b _
    simp only [List.nil_append]
    cases hb : findSub sep b with
    | none => rfl
    | some pq => cases pq; rfl
  | cons c a ih =>
    intro b ha
    have hpre : sep.isPrefixOf (c :: (a ++ b)) = false := by
      cases sep with
      | nil => simp at hsep
      | cons s0 tl =>
        have hs0 : s0 = ch := by simpa using hsep
        have hcne : (s0 == c) = false := by
          simp only [beq_eq_false_iff_ne, ne_eq]
          intro hcon
          exact ha c (by simp) (by rw [← hcon]; exact hs0)
        simp [List.isPrefixOf, hcne]
    rw [show (c :: a) ++ b = c :: (a ++ b) from rfl,
      findSub_cons_not_pref sep c (a ++ b) hpre,
      ih b (fun x hx => ha x (by simp [hx]))]
    cases hb : findSub sep b with
    | none => rfl
    | some pq => cases pq; rfl

theorem pyStripLeft_cons_space (c : Char) (xs : Str) (h : pyIsSpace c = true) :
    pyStripLeft (c :: xs) = pyStripLeft xs := by
  simp [pyStripLeft, List.dropWhile, h]

theorem pyStripLeft_cons_nonspace (c : Char) (xs : Str)
    (h : pyIsSpace c = false) :
    pyStripLeft (c :: xs) = c :: xs := by
  simp [pyStripLeft, List.dropWhile, h]

theorem pyStripRight_append_space (c : Char) (xs : Str)
    (h : pyIsSpace c = true) :
    pyStripRight (xs ++ [c]) = pyStripRight xs := by
  simp [pyStripRight, List.dropWhile, h]

theorem pyStripRight_append_nonspace (c : Char) (xs : Str)
    (h : pyIsSpace c = false) :
    pyStripRight (xs ++ [c]) = xs ++ [c] := by
  unfold pyStripRight
  rw [List.reverse_append]
  simp [List.dropWhile, h]

theorem pyStripLeft_eq_self (j : Str) (h : pyStrip j = j) :
    pyStripLeft j = j := by
  have h1 : (pyStripLeft j).length ≤ j.length := by
    simpa [pyStripLeft] using
      (List.dropWhile_suffix (l := j) pyIsSpace).length_le
  have h2 : (pyStrip j).length ≤ (pyStripLeft j).length := by
    have := (List.dropWhile_suffix (l := (pyStripLeft j).reverse)
      pyIsSpace).length_le
    simpa [pyStrip, pyStripRight] using this
  rw [h] at h2
  have hs : pyStripLeft j <:+ j := by
    simpa [pyStripLeft] using List.dropWhile_suffix (l := j) pyIsSpace
  exact List.Sublist.eq_of_length hs.sublist (by omega)

theorem pyStripRight_eq_self (j : Str) (h : pyStrip j = j) :
    pyStripRight j = j := by
  have hl := pyStripLeft_eq_self j h
  unfold pyStrip at h
  rw [hl] at h
  exact h

theorem pyStrip_sandwich (j : Str) (h : pyStrip j = j) :
    pyStrip ('\n' :: (j ++ ['\n'])) = j := by
  cases hj : j with
  | nil => decide
  | cons c rest =>
    have hl : pyStripLeft j = j := pyStripLeft_eq_self j h
    have hr : pyStripRight j = j := pyStripRight_eq_self j h
    rw [hj] at hl hr
    have hcs : pyIsSpace c = false := by
      by_contra hcon
      have : pyIsSpace c = true := by
        cases hx : pyIsSpace c
        · exact absurd hx hcon
        · rfl
      rw [pyStripLeft_cons_space c rest this] at hl
      have hle := (List.dropWhile_suffix (l := rest) pyIsSpace).length_le
      have hlen : (pyStripLeft rest).length = rest.length + 1 := by
        rw [hl]
        rfl
      simp only [pyStripLeft] at hlen
      omega
    unfold pyStrip
    rw [pyStripLeft_cons_space '\n' _ (by decide),
      show (c :: rest) ++ ['\n'] = c :: (rest ++ ['\n']) from rfl,
      pyStripLeft_cons_nonspace c _ hcs,
      show c :: (rest ++ ['\n']) = (c :: rest) ++ ['\n'] from rfl,
      pyStripRight_append_space '\n' _ (by decide)]
    exact hr

theorem pySplit_step (sep s pre post : Str) (hsep : ¬ sep = [])
    (h : findSub sep s = some (pre, post)) :
    pySplit sep s = pre :: pySplit sep post := by
  conv_lhs => unfold pySplit
  split
  · rename_i heq
    rw [heq] at h
    cases h
  · rename_i pre' post' heq
    rw [heq] at h
    injection h with h
    injection h with h1 h2
    subst h1
    subst h2
    rw [dif_neg]
    intro hcon
    rw [List.isEmpty_iff] at hcon
    exact hsep hcon

theorem pySplit_none (sep s : Str) (h : findSub sep s = none) :
    pySplit sep s = [s] := by
  conv_lhs => unfold pySplit
  split
  · rfl
  · rename_i pre' post' heq
    rw [heq] at h
    cases h

theorem nl_j_nl_no_tick (j : Str) (hj : ∀ c ∈ j, ¬ c = '`') :
    ∀ c ∈ (lit "\n" ++ j) ++ lit "\n", ¬ c = '`' := by
  intro c hc
  simp [lit] at hc
  rcases hc with hc | hc | hc
  · subst hc; decide
  · exact hj c hc
  · subst hc; decide

theorem findSub_json_tail (j : Str) (hj : ∀ c ∈ j, ¬ c = '`') :
    findSub jsonFence (((lit "\n" ++ j) ++ lit "\n") ++ plainFence) = none := by
  rw [findSub_append_no_head jsonFence '`' (by decide) _ plainFence
    (nl_j_nl_no_tick j hj)]
  rw [show findSub jsonFence plainFence = none from by decide]
  rfl

theorem findSub_plain_tail (j : Str) (hj : ∀ c ∈ j, ¬ c = '`') :
    findSub plainFence (((lit "\n" ++ j) ++ lit "\n") ++ plainFence)
      = some ((lit "\n" ++ j) ++ lit "\n", []) := by
  rw [findSub_append_no_head plainFence '`' (by decide) _ plainFence
    (nl_j_nl_no_tick j hj)]
  rw [show findSub plainFence plainFence = some ([], []) from by decide]
  simp

theorem findSub_fence_nofence (sep j : Str) (hsep : sep.head? = some '`')
    (hj : ∀ c ∈ j, ¬ c = '`') : findSub sep j = none := by
  rw [← List.append_nil j,
    findSub_append_no_head sep '`' hsep j [] hj]
  cases sep with
  | nil => simp at hsep
  | cons a tl => rfl

theorem pyStrip_nl_wrap (j : Str) (hs : pyStrip j = j) :
    pyStrip ((lit "\n" ++ j) ++ lit "\n") = j := by
  show pyStrip ('\n' :: (j ++ ['\n'])) = j
  exact pyStrip_sandwich j hs

theorem extractWorking_fencedJson (j : Str) (hj : ∀ c ∈ j, ¬ c = '`')
    (hs : pyStrip j = j) :
    extractWorking (jsonFence ++ lit "\n" ++ j ++ lit "\n" ++ plainFence)
      = j := by
  set R : Str := jsonFence ++ lit "\n" ++ j ++ lit "\n" ++ plainFence with hR
  set rest : Str := ((lit "\n" ++ j) ++ lit "\n") ++ plainFence with hrest
  have hR1 : R = jsonFence ++ rest := by
    simp [hR, hrest, List.append_assoc]
  have hstripR : pyStrip R = R := by
    have hleft : pyStripLeft R = R := by
      rw [show R = '`' :: ((lit "``json\n" ++ j ++ lit "\n") ++ plainFence)
        from rfl]
      exact pyStripLeft_cons_nonspace _ _ (by decide)
    have happ : R = (jsonFence ++ lit "\n" ++ j ++ lit "\n" ++ lit "``")
        ++ ['`'] := by
      simp [hR, plainFence, lit, List.append_assoc]
    unfold pyStrip
    rw [hleft, happ]
    exact pyStripRight_append_nonspace _ _ (by decide)
  have hfs1 : findSub jsonFence R = some ([], rest) := by
    rw [hR1]
    exact findSub_prefix _ _ (by decide)
  have hsplit1 : pySplit jsonFence R = [[], rest] := by
    rw [pySplit_step jsonFence R [] rest (by decide) hfs1,
      pySplit_none jsonFence rest (findSub_json_tail j hj)]
  have hsplit2 : pySplit plainFence rest = [(lit "\n" ++ j) ++ lit "\n", []] := by
    rw [pySplit_step plainFence rest ((lit "\n" ++ j) ++ lit "\n") []
      (by decide) (findSub_plain_tail j hj),
      pySplit_none plainFence [] (by decide)]
  have hcont : strContains jsonFence R = true := by
    unfold strContains
    rw [hfs1]
    rfl
  unfold extractWorking
  rw [hstripR]
  simp only [hcont, if_true]
  rw [hsplit1]
  rw [show ([[], rest] : List Str).getD 1 [] = rest from rfl]
  rw [hsplit2]
  rw [show ([(lit "\n" ++ j) ++ lit "\n", []] : List Str).getD 0 []
    = (lit "\n" ++ j) ++ lit "\n" from rfl]
  exact pyStrip_nl_wrap j hs

theorem extractWorking_fencedPlain (j : Str) (hj : ∀ c ∈ j, ¬ c = '`')
    (hs : pyStrip j = j) :
    extractWorking (plainFence ++ lit "\n" ++ j ++ lit "\n" ++ plainFence)
      = j := by
  set R : Str := plainFence ++ lit "\n" ++ j ++ lit "\n" ++ plainFence with hR
  set rest : Str := ((lit "\n" ++ j) ++ lit "\n") ++ plainFence with hrest
  have hR1 : R = plainFence ++ rest := by
    simp [hR, hrest, List.append_assoc]
  have hstripR : pyStrip R = R := by
    have hleft : pyStripLeft R = R := by
      rw [show R = '`' :: ((lit "``\n" ++ j ++ lit "\n") ++ plainFence)
        from rfl]
      exact pyStripLeft_cons_nonspace _ _ (by decide)
    have happ : R = (plainFence ++ lit "\n" ++ j ++ lit "\n" ++ lit "``")
        ++ ['`'] := by
      simp [hR, plainFence, lit, List.append_assoc]
    unfold pyStrip
    rw [hleft, happ]
    exact pyStripRight_append_nonspace _ _ (by decide)
  have hnofence : findSub jsonFence R = none := by
    rw [show R = '`' :: ('`' :: ('`' :: (('\n' :: (j ++ ['\n'])) ++ plainFence)))
      from rfl]
    rw [findSub_cons_not_pref jsonFence '`' _
      (by simp +decide [jsonFence, lit, List.isPrefixOf])]
    rw [findSub_cons_not_pref jsonFence '`' _
      (by simp +decide [jsonFence, lit, List.isPrefixOf])]
    rw [findSub_cons_not_pref jsonFence '`' _
      (by simp +decide [jsonFence, lit, List.isPrefixOf])]
    rw [findSub_append_no_head jsonFence '`' (by decide)
      ('\n' :: (j ++ ['\n'])) plainFence ?ha]
    case ha =>
      intro c hc
      simp at hc
      rcases hc with hc | hc | hc
      · subst hc; decide
      · exact hj c hc
      · subst hc; decide
    rw [show findSub jsonFence plainFence = none from by decide]
    rfl
  have hcontJ : strContains jsonFence R = false := by
    unfold strContains
    rw [hnofence]
    rfl
  have hfs1 : findSub plainFence R = some ([], rest) := by
    rw [hR1]
    exact findSub_prefix _ _ (by decide)
  have hcontP : strContains plainFence R = true := by
    unfold strContains
    rw [hfs1]
    rfl
  have hsplit1 : pySplit plainFence R
      = [[], (lit "\n" ++ j) ++ lit "\n", []] := by
    rw [pySplit_step plainFence R [] rest (by decide) hfs1,
      pySplit_step plainFence rest ((lit "\n" ++ j) ++ lit "\n") []
        (by decide) (findSub_plain_tail j hj),
      pySplit_none plainFence [] (by decide)]
  have hsplit2 : pySplit plainFence ((lit "\n" ++ j) ++ lit "\n")
      = [(lit "\n" ++ j) ++ lit "\n"] := by
    refine pySplit_none plainFence _ (findSub_fence_nofence plainFence _
      (by decide) ?_)
    intro c hc
    simp [lit] at hc
    rcases hc with hc | hc | hc
    · subst hc; decide
    · exact hj c hc
    · subst hc; decide
  unfold extractWorking
  rw [hstripR]
  simp only [hcontJ, hcontP, Bool.false_eq_true, if_false, if_true]
  rw [hsplit1]
  rw [show ([[], (lit "\n" ++ j) ++ lit "\n", []] : List Str).getD 1 []
    = (lit "\n" ++ j) ++ lit "\n" from rfl]
  rw [hsplit2]
  rw [show ([(lit "\n" ++ j) ++ lit "\n"] : List Str).getD 0 []
    = (lit "\n" ++ j) ++ lit "\n" from rfl]
  exact pyStrip_nl_wrap j hs

theorem extractWorking_bare (j : Str) (hj : ∀ c ∈ j, ¬ c = '`')
    (hs : pyStrip j = j) :
    extractWorking j = j := by
  have hJ : strContains jsonFence j = false := by
    unfold strContains
    rw [findSub_fence_nofence jsonFence j (by decide) hj]
    rfl
  have hP : strContains plainFence j = false := by
    unfold strContains
    rw [findSub_fence_nofence plainFence j (by decide) hj]
    rfl
  unfold extractWorking
  rw [hs]
  simp only [hJ, hP, Bool.false_eq_true, if_false]

theorem eraseKey_map_set (k : Str) (v : JValue) : ∀ fs : Decision,
    eraseKey (fs.map (fun p => if p.1 == k then (k, v) else p)) k
      = eraseKey fs k := by
  intro fs
  induction fs with
  | nil => rfl
  | cons p fs ih =>
    cases p with
    | mk k1 v1 =>
      simp only [List.map_cons]
      by_cases hk : (k1 == k) = true
      · have h1 : k1 = k := by simpa using hk
        subst h1
        simp only [if_pos hk]
        unfold eraseKey at ih ⊢
        simp only [List.filter]
        rw [show ((k1, v).1 != k1) = false by simp]
        simpa using ih
      · have hkf : (k1 == k) = false := by simpa using hk
        simp only [hkf, Bool.false_eq_true, if_false]
        unfold eraseKey at ih ⊢
        simp only [List.filter]
        rw [show ((k1, v1).1 != k) = true by simpa using hk]
        rw [ih]

theorem eraseKey_dictSet (fs : Decision) (k : Str) (v : JValue) :
    eraseKey (dictSet fs k v) k = eraseKey fs k := by
  unfold dictSet
  split
  · exact eraseKey_map_set k v fs
  · unfold eraseKey
    rw [List.filter_append]
    simp

theorem eraseKey_attach (fs : Decision) (r1 r2 : Str) :
    eraseKey (attachReasoning fs r1) (lit "_reasoning")
      = eraseKey (attachReasoning fs r2) (lit "_reasoning") := by
  unfold attachReasoning
  rw [eraseKey_dictSet, eraseKey_dictSet]

theorem handleShape_erase (v : JValue) (r1 r2 : Str) :
    (handleDecisionShape v r1).map (fun d => eraseKey d (lit "_reasoning"))
      = (handleDecisionShape v r2).map
          (fun d => eraseKey d (lit "_reasoning")) := by
  cases v with
  | obj fs =>
    cases hd : dictGet fs (lit "decisions") with
    | some dv =>
      cases dv with
      | arr ds =>
        cases ds with
        | nil => simp [handleDecisionShape, hd]
        | cons d0 ds =>
          cases d0 with
          | obj efs =>
            simp [handleDecisionShape, hd, eraseKey_attach efs r1 r2]
          | null => simp [handleDecisionShape, hd]
          | bool b => simp [handleDecisionShape, hd]
          | num x => simp [handleDecisionShape, hd]
          | str s => simp [handleDecisionShape, hd]
          | arr xs => simp [handleDecisionShape, hd]
      | null =>
        simp only [handleDecisionShape, hd]
        split
        · simp [eraseKey_attach fs r1 r2]
        · rfl
      | bool b =>
        simp only [handleDecisionShape, hd]
        split
        · simp [eraseKey_attach fs r1 r2]
        · rfl
      | num x =>
        simp only [handleDecisionShape, hd]
        split
        · simp [eraseKey_attach fs r1 r2]
        · rfl
      | str s =>
        simp only [handleDecisionShape, hd]
        split
        · simp [eraseKey_attach fs r1 r2]
        · rfl
      | obj gs =>
        simp only [handleDecisionShape, hd]
        split
        · simp [eraseKey_attach fs r1 r2]
        · rfl
    | none =>
      simp only [handleDecisionShape, hd]
      split
      · simp [eraseKey_attach fs r1 r2]
      · rfl
  | arr ds =>
    cases ds with
    | nil => simp [handleDecisionShape]
    | cons d0 ds =>
      cases d0 with
      | obj efs => simp [handleDecisionShape, eraseKey_attach efs r1 r2]
      | null => simp [handleDecisionShape]
      | bool b => simp [handleDecisionShape]
      | num x => simp [handleDecisionShape]
      | str s => simp [handleDecisionShape]
      | arr xs => simp [handleDecisionShape]
  | null => rfl
  | bool b => rfl
  | num x => rfl
  | str s => rfl

theorem parse_decision_via_working (r : Str) (hr : r.isEmpty = false)
    (j : Str) (hw : extractWorking r = j) :
    parse_decision r
      = (match (match jsonLoads j with
                | some v => some v
                | none => jsonLoads (cleanupSpecialChars j)) with
         | none => none
         | some decision =>
            if !(jTruthy decision) then none
            else handleDecisionShape decision r) := by
  unfold parse_decision
  simp only [hr, Bool.false_eq_true, if_false, hw]

/-- Fuel-indexed structural evaluator for `pyReplace`, used to compute the
well-founded definition on concrete inputs. -/
def pyReplaceF (old new : Str) : Nat → Str → Str
  | 0, s => s
  | fuel+1, s =>
    match findSub old s with
    | none => s
    | some (pre, post) =>
        if old.isEmpty then s
        else pre ++ new ++ pyReplaceF old new fuel post

theorem pyReplace_none (old new s : Str) (h : findSub old s = none) :
    pyReplace old new s = s := by
  conv_lhs => unfold pyReplace
  split
  · rfl
  · rename_i pre post heq
    rw [heq] at h
    cases h

theorem pyReplace_step (old new s pre post : Str) (hold : ¬ old = [])
    (h : findSub old s = some (pre, post)) :
    pyReplace old new s = pre ++ new ++ pyReplace old new post := by
  conv_lhs => unfold pyReplace
  split
  · rename_i heq
    rw [heq] at h
    cases h
  · rename_i pre' post' heq
    rw [heq] at h
    injection h with h
    injection h with h1 h2
    subst h1
    subst h2
    rw [dif_neg]
    intro hcon
    rw [List.isEmpty_iff] at hcon
    exact hold hcon

/-- `pyReplace` agrees with its structural evaluator given enough fuel. -/
theorem pyReplace_eq_fuel (old new : Str) :
    ∀ (fuel : Nat) (s : Str), s.length < fuel →
      pyReplace old new s = pyReplaceF old new fuel s := by
  intro fuel
  induction fuel with
  | zero => exact fun s hs => absurd hs (Nat.not_lt_zero _)
  | succ n ih =>
    intro s hs
    cases hf : findSub old s with
    | none =>
      rw [pyReplace_none old new s hf]
      simp only [pyReplaceF, hf]
    | some pp =>
      obtain ⟨pre, post⟩ := pp
      by_cases ho : old = []
      · subst ho
        have h1 : pyReplace [] new s = s := by
          conv_lhs => unfold pyReplace
          split
          · rfl
          · rfl
        rw [h1]
        simp only [pyReplaceF, hf]
        rfl
      · have hlt : post.length < s.length :=
          findSub_length_lt old s pre post
            (fun hc => ho (List.isEmpty_iff.mp hc)) hf
        rw [pyReplace_step old new s pre post ho hf]
        simp only [pyReplaceF, hf]
        rw [if_neg (fun hc => ho (List.isEmpty_iff.mp hc))]
        rw [ih post (Nat.lt_of_lt_of_le hlt (Nat.le_of_lt_succ hs))]

/-- Structural evaluator for `pyReplace` with just enough fuel. -/
def pyReplaceE (old new s : Str) : Str := pyReplaceF old new (s.length + 1) s

theorem pyReplace_eq_E (old new s : Str) :
    pyReplace old new s = pyReplaceE old new s :=
  pyReplace_eq_fuel old new (s.length + 1) s (Nat.lt_succ_self _)

/-- Two responses with the same extracted working text parse to the same
decision once the `_reasoning` bookkeeping field is removed. -/
theorem parse_decision_erase_eq (r1 r2 : Str) (h1 : r1.isEmpty = false)
    (h2 : r2.isEmpty = false) (j : Str)
    (hw1 : extractWorking r1 = j) (hw2 : extractWorking r2 = j) :
    (parse_decision r1).map (fun d => eraseKey d (lit "_reasoning"))
      = (parse_decision r2).map (fun d => eraseKey d (lit "_reasoning")) := by
  rw [parse_decision_via_working r1 h1 j hw1,
    parse_decision_via_working r2 h2 j hw2]
  generalize (match jsonLoads j with
              | some v => some v
              | none => jsonLoads (cleanupSpecialChars j)) = m
  cases m with
  | none => rfl
  | some d =>
    cases ht : jTruthy d with
    | false => simp [ht]
    | true => simpa [ht] using handleShape_erase d r1 r2

/-- C5: parser round-trip. For every fence-free, whitespace-stripped decision
text, a response wrapping it in a fenced block tagged json, a response
wrapping it in a plain fenced block, and the bare unfenced text all yield
the same parsed decision up to the `_reasoning` bookkeeping field, which
`_parse_decision` always sets to the raw response and therefore differs
between the three by construction (see the counterexample for the failure of
on-the-nose equality claimed by the spec). -/
theorem C5_parser_roundtrip (j : Str) (hj : ∀ c ∈ j, ¬ c = '`')
    (hs : pyStrip j = j) :
    (parse_decision (jsonFence ++ lit "\n" ++ j ++ lit "\n" ++ plainFence)).map
        (fun d => eraseKey d (lit "_reasoning"))
      = (parse_decision j).map (fun d => eraseKey d (lit "_reasoning"))
    ∧ (parse_decision
          (plainFence ++ lit "\n" ++ j ++ lit "\n" ++ plainFence)).map
        (fun d => eraseKey d (lit "_reasoning"))
      = (parse_decision j).map (fun d => eraseKey d (lit "_reasoning")) := by
  cases j with
  | nil =>
    have hclean : cleanupSpecialChars [] = [] := by
      simp only [cleanupSpecialChars, pyReplace_eq_E]
      decide
    have hfj : parse_decision
        (jsonFence ++ lit "\n" ++ ([] : Str) ++ lit "\n" ++ plainFence)
        = none := by
      rw [parse_decision_via_working _ (by decide) []
        (extractWorking_fencedJson [] hj hs)]
      rw [hclean]
      decide
    have hfp : parse_decision
        (plainFence ++ lit "\n" ++ ([] : Str) ++ lit "\n" ++ plainFence)
        = none := by
      rw [parse_decision_via_working _ (by decide) []
        (extractWorking_fencedPlain [] hj hs)]
      rw [hclean]
      decide
    rw [hfj, hfp]
    exact ⟨rfl, rfl⟩
  | cons c0 cs =>
    exact ⟨parse_decision_erase_eq _ _ rfl rfl (c0 :: cs)
        (extractWorking_fencedJson _ hj hs) (extractWorking_bare _ hj hs),
      parse_decision_erase_eq _ _ rfl rfl (c0 :: cs)
        (extractWorking_fencedPlain _ hj hs) (extractWorking_bare _ hj hs)⟩

set_option maxRecDepth 8192 in
/-- C5 (counterexample): for the valid decision object with operation buy,
the fenced-json response and the bare response both parse, but to dicts that
differ in the `_reasoning` field (it records the raw response), refuting the
spec's on-the-nose equality of the three parsed decisions. -/
theorem C5_counterexample :
    parse_decision (jsonFence ++ lit "\n" ++ lit "\x7b\"operation\": \"buy\"\x7d"
        ++ lit "\n" ++ plainFence)
      = some [(lit "operation", .str (lit "buy")),
          (lit "_reasoning",
            .str (jsonFence ++ lit "\n" ++ lit "\x7b\"operation\": \"buy\"\x7d"
              ++ lit "\n" ++ plainFence))]
    ∧ parse_decision (lit "\x7b\"operation\": \"buy\"\x7d")
      = some [(lit "operation", .str (lit "buy")),
          (lit "_reasoning", .str (lit "\x7b\"operation\": \"buy\"\x7d"))]
    ∧ ¬ parse_decision (jsonFence ++ lit "\n"
          ++ lit "\x7b\"operation\": \"buy\"\x7d" ++ lit "\n" ++ plainFence)
        = parse_decision (lit "\x7b\"operation\": \"buy\"\x7d") := by
  have hfj : parse_decision (jsonFence ++ lit "\n"
      ++ lit "\x7b\"operation\": \"buy\"\x7d" ++ lit "\n" ++ plainFence)
      = some [(lit "operation", .str (lit "buy")),
          (lit "_reasoning",
            .str (jsonFence ++ lit "\n" ++ lit "\x7b\"operation\": \"buy\"\x7d"
              ++ lit "\n" ++ plainFence))] := by
    rw [parse_decision_via_working _ (by decide) _
      (extractWorking_fencedJson (lit "\x7b\"operation\": \"buy\"\x7d")
        (by decide) (by decide))]
    decide
  have hb : parse_decision (lit "\x7b\"operation\": \"buy\"\x7d")
      = some [(lit "operation", .str (lit "buy")),
          (lit "_reasoning", .str (lit "\x7b\"operation\": \"buy\"\x7d"))] := by
    rw [parse_decision_via_working _ (by decide) _
      (extractWorking_bare (lit "\x7b\"operation\": \"buy\"\x7d")
        (by decide) (by decide))]
    decide
  refine ⟨hfj, hb, ?_⟩
  rw [hfj, hb]
  decide

/-- C5 (witness): the round-trip theorem applied to a concrete fence-free,
stripped decision text. -/
theorem C5_witness :
    (∀ c ∈ lit "\x7b\"operation\": \"sell\"\x7d", ¬ c = '`')
    ∧ pyStrip (lit "\x7b\"operation\": \"sell\"\x7d")
        = lit "\x7b\"operation\": \"sell\"\x7d"
    ∧ ((parse_decision (jsonFence ++ lit "\n"
          ++ lit "\x7b\"operation\": \"sell\"\x7d" ++ lit "\n"
          ++ plainFence)).map (fun d => eraseKey d (lit "_reasoning"))
        = (parse_decision (lit "\x7b\"operation\": \"sell\"\x7d")).map
            (fun d => eraseKey d (lit "_reasoning"))
      ∧ (parse_decision (plainFence ++ lit "\n"
          ++ lit "\x7b\"operation\": \"sell\"\x7d" ++ lit "\n"
          ++ plainFence)).map (fun d => eraseKey d (lit "_reasoning"))
        = (parse_decision (lit "\x7b\"operation\": \"sell\"\x7d")).map
            (fun d => eraseKey d (lit "_reasoning"))) :=
  ⟨by decide, by decide,
    C5_parser_roundtrip (lit "\x7b\"operation\": \"sell\"\x7d")
      (by decide) (by decide)⟩

/-- The curly-quote response used in the C6 analysis: the decision object
with operation buy, written with U+201C/U+201D double quotes. -/
def c6input : Str := lit "\x7b“operation”: “buy”\x7d"

/-- C6: the code bug. The spec says the parser, after a strict-parse
failure, normalizes curly quotes to straight quotes and retries, so this
curly-quoted decision should parse. In the repository's source the
curly-quote replacement literals were lost (line 436 of the service lexes as
one replace whose pattern is the accidental text of the two merged calls,
and line 437 replaces a straight apostrophe by itself), so the code's
normalization leaves the text unchanged, the one retry fails again, and
`_parse_decision` returns no decision — while the normalization written in
the spec's words makes the same text parse. -/
theorem C6_normalization_bug :
    jsonLoads c6input = none
    ∧ cleanupSpecialChars c6input = c6input
    ∧ jsonLoads (cleanupSpecialCharsSpec c6input)
        = some (.obj [(lit "operation", .str (lit "buy"))])
    ∧ parse_decision c6input = none := by
  have hclean : cleanupSpecialChars c6input = c6input := by
    simp only [cleanupSpecialChars, pyReplace_eq_E]
    decide
  refine ⟨by decide, hclean, ?_, ?_⟩
  · simp only [cleanupSpecialCharsSpec, pyReplace_eq_E]
    decide
  · rw [parse_decision_via_working c6input (by decide) c6input
      (extractWorking_bare c6input (by decide) (by decide))]
    rw [hclean]
    decide
